import Mathlib

/-!
The flocking core of `main.cpp` (sdl-boids-2d).

A shallow embedding of the vector helpers, the neighbour-weighted `steer`
function and the per-tick loop of `main.cpp`, followed by theorems about them.

Number model.

A C++ `double` is modelled by `Dbl F`: an exact finite value of an ordered
field `F`, one of the two infinities, or NaN, with the IEEE-754 rules for the
special values (`1/0 = +inf`, `0 * inf = NaN`, `inf - inf = NaN`, every ordered
comparison with NaN is false).  Rounding error, overflow to infinity, underflow
to zero and the sign of zero are not modelled: finite arithmetic is exact.  The
theorems below are therefore about the program's arithmetic up to rounding; a
property that only holds, or only fails, by the last bit of a rounded result or
by overflow is outside this model and is not stated here.

The C library function `std::sqrt` is a parameter `sqrt : F → F` of every
definition that calls it.  Instantiated with `F = ℚ` and `Rat.sqrt` the
definitions run; the theorems that need the square root to be exact assume
`SqrtExact sqrt`, which `F = ℝ` with `Real.sqrt` satisfies.

An `int` is a Lean `Int`; the conversion `static_cast<int>` of a `double` that
is NaN, infinite or outside the 32-bit range, and `%` by zero, are undefined
behaviour in C++ and are modelled by `none`.

The screen extents `SCREEN_WIDTH` and `SCREEN_HEIGHT` are `int` globals declared
in `environment.h` and re-read from the window every frame; they are the
parameters `W` and `H` here.  The `SDL_Rect box` of a boid is a rendering output
with no feedback into the simulation and is left out; the display angle `vecDir`
is defined, with the C library function `std::atan` as a parameter, but is not
threaded through the tick, which never reads it back.  The values returned by
`rand()` are parameters of `randBoid`, and `argv[1]` is a list of characters.
-/

namespace Boids

/-! ## Doubles -/

/-- A `double`: a finite value, `+inf`, `-inf` or NaN. -/
inductive Dbl (F : Type) where
  | fin (x : F)
  | pinf
  | ninf
  | nan

namespace Dbl

variable {F : Type} [LinearOrderedField F]

/-- The infinity of the given sign (`true` means negative). -/
def infOf (neg : Bool) : Dbl F :=
  if neg then ninf else pinf

/-- The `double` addition: IEEE-754 on the infinities and NaN, exact on two finite values
(the rounding of the sum to a `double` is not modelled). -/
def add : Dbl F → Dbl F → Dbl F
  | fin a, fin b => fin (a + b)
  | nan, _ => nan
  | _, nan => nan
  | pinf, ninf => nan
  | ninf, pinf => nan
  | pinf, _ => pinf
  | _, pinf => pinf
  | ninf, _ => ninf
  | _, ninf => ninf

/-- The `double` negation. -/
def neg : Dbl F → Dbl F
  | fin a => fin (-a)
  | pinf => ninf
  | ninf => pinf
  | nan => nan

/-- The `double` subtraction: IEEE-754 on the infinities and NaN, exact on two finite
values (the rounding of the difference to a `double` is not modelled). -/
def sub (a b : Dbl F) : Dbl F :=
  add a (neg b)

/-- Product of an infinity (negative when `neg`) with the finite value `b`. -/
def mulInf (neg : Bool) (b : F) : Dbl F :=
  if b = 0 then nan else if 0 < b then infOf neg else infOf (!neg)

/-- The `double` multiplication: IEEE-754 on the infinities and NaN, exact on two finite
values (rounding, overflow to an infinity and underflow to zero are not modelled). -/
def mul : Dbl F → Dbl F → Dbl F
  | fin a, fin b => fin (a * b)
  | nan, _ => nan
  | _, nan => nan
  | pinf, fin b => mulInf false b
  | ninf, fin b => mulInf true b
  | fin a, pinf => mulInf false a
  | fin a, ninf => mulInf true a
  | pinf, pinf => pinf
  | ninf, ninf => pinf
  | pinf, ninf => ninf
  | ninf, pinf => ninf

/-- The `double` division: IEEE-754 on the infinities, NaN and a zero divisor (taken as
`+0`), exact on two finite values with a non-zero divisor (rounding, overflow and underflow
are not modelled). -/
def div : Dbl F → Dbl F → Dbl F
  | fin a, fin b =>
    if b = 0 then (if a = 0 then nan else if 0 < a then pinf else ninf)
    else fin (a / b)
  | nan, _ => nan
  | _, nan => nan
  | fin _, pinf => fin 0
  | fin _, ninf => fin 0
  | pinf, fin b => if 0 ≤ b then pinf else ninf
  | ninf, fin b => if 0 ≤ b then ninf else pinf
  | pinf, pinf => nan
  | pinf, ninf => nan
  | ninf, pinf => nan
  | ninf, ninf => nan

instance : Add (Dbl F) := ⟨add⟩
instance : Sub (Dbl F) := ⟨sub⟩
instance : Mul (Dbl F) := ⟨mul⟩
instance : Div (Dbl F) := ⟨div⟩

/-- The function `std::sqrt`, over the underlying square root `sqrt` of the finite
non-negative values; whether `sqrt` is exact or rounded is left to the parameter. -/
def sqrt (sqrt : F → F) : Dbl F → Dbl F
  | fin a => if a < 0 then nan else fin (sqrt a)
  | pinf => pinf
  | ninf => nan
  | nan => nan

/-- The comparison `a < b`. -/
def lt : Dbl F → Dbl F → Bool
  | fin a, fin b => decide (a < b)
  | nan, _ => false
  | _, nan => false
  | ninf, ninf => false
  | ninf, _ => true
  | pinf, _ => false
  | fin _, pinf => true
  | fin _, ninf => false

/-- The comparison `a == b`. -/
def eq : Dbl F → Dbl F → Bool
  | fin a, fin b => decide (a = b)
  | pinf, pinf => true
  | ninf, ninf => true
  | _, _ => false

/-- The comparison `a <= b`. -/
def le (a b : Dbl F) : Bool :=
  lt a b || eq a b

/-- The comparison `a > b`. -/
def gt (a b : Dbl F) : Bool :=
  lt b a

/-- The comparison `a >= b`. -/
def ge (a b : Dbl F) : Bool :=
  le b a

/-- The test `std::isnan`. -/
def isnan : Dbl F → Bool
  | nan => true
  | _ => false

/-- Conversion of an `int` to `double`. -/
def ofInt (i : Int) : Dbl F :=
  fin (i : F)

/-- Rounding to the nearest integer, halfway cases away from zero. -/
def roundHalfAway [FloorRing F] (a : F) : Int :=
  if 0 ≤ a then ⌊a + 1 / 2⌋ else ⌈a - 1 / 2⌉

/-- The function `std::round`. -/
def round [FloorRing F] : Dbl F → Dbl F
  | fin a => fin ((roundHalfAway a : Int) : F)
  | pinf => pinf
  | ninf => ninf
  | nan => nan

/-- Smallest value of a 32-bit `int`. -/
def INT_MIN : Int := -2147483648

/-- Largest value of a 32-bit `int`. -/
def INT_MAX : Int := 2147483647

/-- Truncation toward zero. -/
def trunc [FloorRing F] (a : F) : Int :=
  if 0 ≤ a then ⌊a⌋ else ⌈a⌉

/-- The conversion `static_cast<int>`: truncation, undefined (`none`) for NaN,
the infinities and values outside the range of `int`. -/
def toInt [FloorRing F] : Dbl F → Option Int
  | fin a => if INT_MIN ≤ trunc a ∧ trunc a ≤ INT_MAX then some (trunc a) else none
  | _ => none

end Dbl

/-- The `int` operator `%`: remainder of the truncated division, undefined
(`none`) for a zero divisor. -/
def imod (a b : Int) : Option Int :=
  if b = 0 then none else some (Int.tmod a b)

/-- Exactness of the underlying square root on the non-negative values. -/
def SqrtExact {F : Type} [LinearOrderedField F] (sqrt : F → F) : Prop :=
  ∀ x : F, 0 ≤ x → 0 ≤ sqrt x ∧ sqrt x * sqrt x = x

/-! ## Constants -/

section Constants

variable {F : Type} [LinearOrderedField F]

/-- Constant `BOID_SPEED = 7`. -/
def BOID_SPEED : Int := 7

/-- Constant `MAX_AVOID = 0.12`. -/
def MAX_AVOID : Dbl F := Dbl.fin (12 / 100)

/-- Constant `MAX_ALN = 0.00047`. -/
def MAX_ALN : Dbl F := Dbl.fin (47 / 100000)

/-- Constant `MAX_CSN = 0.000006`. -/
def MAX_CSN : Dbl F := Dbl.fin (6 / 1000000)

/-- Constant `BOID_SIGHT_RADIUS = 120`. -/
def BOID_SIGHT_RADIUS : Dbl F := Dbl.fin 120

end Constants

/-! ## Vectors and boids -/

/-- The struct `Vec2`. -/
structure Vec2 (F : Type) where
  x : Dbl F
  y : Dbl F

/-- The struct `Boid` (without its rendering rectangle). -/
structure Boid (F : Type) where
  vel : Vec2 F
  pos : Vec2 F
  accel : Vec2 F

section Vector

variable {F : Type} [LinearOrderedField F]

/-- The default constructor `Vec2()`: the zero vector. -/
def Vec2.zero : Vec2 F :=
  ⟨Dbl.fin 0, Dbl.fin 0⟩

/-- The member `Vec2::operator!=`, called as `this != a`. -/
def Vec2.ne (this a : Vec2 F) : Bool :=
  !(Dbl.eq a.x this.x && Dbl.eq a.y this.y)

/-- The overload `int wrap( double in, int param )`. -/
def wrap [FloorRing F] (v : Dbl F) (param : Int) : Option Int :=
  if Dbl.le v (Dbl.fin 0) then some param
  else (Dbl.toInt (Dbl.round v)).bind (fun r => imod r param)

/-- The overload `double wrap( double in, double param )`. -/
def wrapDouble (v param : Dbl F) : Dbl F :=
  if Dbl.le v (Dbl.fin 0) then param
  else if Dbl.ge v param then Dbl.fin 0
  else v

/-- The function `addMod`; with the `int` extents `W` and `H` it calls the
`int` overload of `wrap` and converts the result back to `double`. -/
def addMod [FloorRing F] (W H : Int) (a b : Vec2 F) : Option (Vec2 F) :=
  (wrap (a.x + b.x) W).bind (fun x =>
    (wrap (a.y + b.y) H).bind (fun y =>
      some ⟨Dbl.ofInt x, Dbl.ofInt y⟩))

/-- The function `add`. -/
def add (a b : Vec2 F) : Vec2 F :=
  ⟨a.x + b.x, a.y + b.y⟩

/-- The function `sub`. -/
def sub (a b : Vec2 F) : Vec2 F :=
  ⟨a.x - b.x, a.y - b.y⟩

/-- The function `scale`. -/
def scale (a : Vec2 F) (b : Dbl F) : Vec2 F :=
  ⟨a.x * b, a.y * b⟩

/-- The function `vecMag`. -/
def vecMag (sqrt : F → F) (v : Vec2 F) : Dbl F :=
  Dbl.sqrt sqrt (v.x * v.x + v.y * v.y)

/-- The function `norm`. -/
def norm (sqrt : F → F) (v : Vec2 F) : Vec2 F :=
  scale v (Dbl.fin 1 / vecMag sqrt v)

/-- The function `newMag`. -/
def newMag (sqrt : F → F) (v : Vec2 F) (n : Dbl F) : Vec2 F :=
  scale (norm sqrt v) n

/-- The function `limit`. -/
def limit (sqrt : F → F) (v : Vec2 F) (l : Dbl F) : Vec2 F :=
  let mSq := vecMag sqrt v * vecMag sqrt v
  if Dbl.gt mSq (l * l) then scale (newMag sqrt v mSq) l else v

/-- The function `minLimit`. -/
def minLimit (sqrt : F → F) (v : Vec2 F) (l : Dbl F) : Vec2 F :=
  let mSq := vecMag sqrt v * vecMag sqrt v
  if Dbl.lt mSq (l * l) then scale (newMag sqrt v mSq) l else v

/-- The function `dist`. -/
def dist (sqrt : F → F) (x0 x1 y0 y1 : Dbl F) : Dbl F :=
  Dbl.sqrt sqrt ((x1 - x0) * (x1 - x0) + (y1 - y0) * (y1 - y0))

end Vector

/-! ## Steering -/

/-- The enum `Flag`. -/
inductive Flag where
  | ALIGN
  | COHESE
  | AVOID
deriving DecidableEq

section Steering

variable {F : Type} [LinearOrderedField F]

/-- The lambda `t` of `steer`: what the member `b`, at distance `d` from
`current`, adds to the running sum. -/
def contribution (f : Flag) (current b : Boid F) (d : Dbl F) : Vec2 F :=
  match f with
  | Flag.ALIGN => b.vel
  | Flag.COHESE => b.pos
  | Flag.AVOID => scale (sub current.pos b.pos) (Dbl.fin 1 / (d * d))

/-- The neighbour test of `steer`:
`current.vel != b.vel && current.pos != b.pos && d < BOID_SIGHT_RADIUS`. -/
def isNeighbour (current b : Boid F) (d : Dbl F) : Bool :=
  Vec2.ne current.vel b.vel && Vec2.ne current.pos b.pos && Dbl.lt d BOID_SIGHT_RADIUS

/-- The scan loop of `steer` over the members still to visit, carrying the
running sum `avg` and the counter `total`. -/
def steerScan (sqrt : F → F) (f : Flag) (current : Boid F) :
    List (Boid F) → Vec2 F × Nat → Vec2 F × Nat
  | [], acc => acc
  | b :: rest, (avg, total) =>
    let d := dist sqrt current.pos.x b.pos.x current.pos.y b.pos.y
    if isNeighbour current b d then
      steerScan sqrt f current rest (add avg (contribution f current b d), total + 1)
    else
      steerScan sqrt f current rest (avg, total)

/-- The lambda `scaler` of `steer`: the per-behaviour constant handed to `limit`. -/
def scaler (f : Flag) : Dbl F :=
  match f with
  | Flag.ALIGN => MAX_ALN
  | Flag.COHESE => MAX_CSN
  | Flag.AVOID => MAX_AVOID

/-- The function `steer`, over the whole population `boids`. -/
def steer (sqrt : F → F) (current : Boid F) (boids : List (Boid F)) (f : Flag) : Vec2 F :=
  let scanned := steerScan sqrt f current boids (Vec2.zero, 0)
  let total := scanned.2
  if 0 < total then
    let avg : Vec2 F := ⟨scanned.1.x / Dbl.ofInt total, scanned.1.y / Dbl.ofInt total⟩
    if Dbl.isnan (vecMag sqrt avg) then Vec2.zero
    else
      let avg := if f = Flag.COHESE then sub avg current.pos else avg
      limit sqrt (sub avg current.vel) (scaler f)
  else
    limit sqrt Vec2.zero (scaler f)

end Steering

/-! ## The per-tick loop of `main` -/

section Tick

variable {F : Type} [LinearOrderedField F]

/-- Lines 322-323 of the loop body: position and velocity integration of one boid. -/
def integrate [FloorRing F] (W H : Int) (b : Boid F) : Option (Boid F) :=
  (addMod W H b.pos b.vel).bind (fun p =>
    some { b with pos := p, vel := add b.vel b.accel })

/-- Lines 325-329 of the loop body: the sum of the three `steer` results. -/
def steering (sqrt : F → F) (current : Boid F) (boids : List (Boid F)) : Vec2 F :=
  add (steer sqrt current boids Flag.ALIGN)
    (add (steer sqrt current boids Flag.AVOID) (steer sqrt current boids Flag.COHESE))

/-- Lines 331-333 of the loop body: the minimum-speed step. -/
def enforceSpeed (sqrt : F → F) (b : Boid F) : Boid F :=
  if Dbl.lt (vecMag sqrt b.vel) (Dbl.ofInt BOID_SPEED) then
    { b with vel := newMag sqrt b.vel (Dbl.ofInt BOID_SPEED) }
  else b

/-- The body of the per-boid loop of `main` for index `i`, on the array `boids`
updated in place: integrate `boids[i]`, store it, steer against the array as it
now stands, store the acceleration, enforce the minimum speed. -/
def tickBody [FloorRing F] (sqrt : F → F) (W H : Int) (boids : List (Boid F)) (i : Nat) :
    Option (List (Boid F)) :=
  match boids[i]? with
  | none => some boids
  | some b =>
    (integrate W H b).bind (fun b1 =>
      let boids1 := boids.set i b1
      let b2 := { b1 with accel := steering sqrt b1 boids1 }
      some (boids.set i (enforceSpeed sqrt b2)))

/-- The loop `for( int i=0; i < NUM_BOIDS; ++i )` from index `i`, with `n`
iterations left. -/
def tickFrom [FloorRing F] (sqrt : F → F) (W H : Int) : Nat → Nat → List (Boid F) → Option (List (Boid F))
  | 0, _, boids => some boids
  | n + 1, i, boids => (tickBody sqrt W H boids i).bind (tickFrom sqrt W H n (i + 1))

/-- One tick: the per-boid loop of `main` over the whole population. -/
def tick [FloorRing F] (sqrt : F → F) (W H : Int) (boids : List (Boid F)) : Option (List (Boid F)) :=
  tickFrom sqrt W H boids.length 0 boids

/-- The state in which iteration `i` of the loop leaves boid `i`, given the array `arr`
at the start of the iteration and the integrated boid `b1`. -/
def finalBoid (sqrt : F → F) (arr : List (Boid F)) (i : Nat) (b1 : Boid F) : Boid F :=
  enforceSpeed sqrt { b1 with accel := steering sqrt b1 (arr.set i b1) }

/-- The acceleration of agent `i` under the snapshot reading of the specification: the
agent, after its own position and velocity integration, is steered against a copy of the
population in which every other agent is as it was at the start of the tick. -/
def snapshotSteering [FloorRing F] (sqrt : F → F) (W H : Int) (boids : List (Boid F))
    (i : Nat) : Option (Vec2 F) :=
  match boids[i]? with
  | none => none
  | some b => (integrate W H b).map (fun b1 => steering sqrt b1 (boids.set i b1))

end Tick

/-! ## Startup and display -/

section Startup

variable {F : Type} [LinearOrderedField F]

/-- Constant `DEFAULT_NUM_BOIDS = 600`. -/
def DEFAULT_NUM_BOIDS : Int := 600

/-- Constant `DEG_TO_RAD = 0.01745329`. -/
def DEG_TO_RAD : Dbl F := Dbl.fin (1745329 / 100000000)

/-- Constant `OFFSET = 180`. -/
def OFFSET : Dbl F := Dbl.fin 180

/-- The function `std::atan` on doubles, over an arctangent `atan` of the finite values and
the value `halfPi` it tends to at `+inf`. -/
def Dbl.atan (atan : F → F) (halfPi : F) : Dbl F → Dbl F
  | Dbl.fin a => Dbl.fin (atan a)
  | Dbl.pinf => Dbl.fin halfPi
  | Dbl.ninf => Dbl.fin (-halfPi)
  | Dbl.nan => Dbl.nan

/-- The function `vecDir`; the C library function `std::atan` is the parameter `atan`. -/
def vecDir (atan : Dbl F → Dbl F) (v : Vec2 F) : Dbl F :=
  atan (v.y / v.x) / DEG_TO_RAD - OFFSET

/-- The vector pointing the opposite way: both components negated. -/
def Vec2.neg (v : Vec2 F) : Vec2 F :=
  ⟨Dbl.neg v.x, Dbl.neg v.y⟩

/-- The function `randBoid` (without the rendering rectangle); `r1`, `r2`, `r3`, `r4` are
the values returned by its four successive calls of `rand()`. -/
def randBoid (sqrt : F → F) (W H : Int) (r1 r2 r3 r4 : Int) : Option (Boid F) :=
  (imod r1 (W - 20)).bind (fun px =>
    (imod r2 (H - 20)).bind (fun py =>
      let vel : Vec2 F :=
        ⟨Dbl.ofInt (-3 * BOID_SPEED + Int.tmod r3 6 * BOID_SPEED),
          Dbl.ofInt (-3 * BOID_SPEED + Int.tmod r4 6 * BOID_SPEED)⟩
      some
        { vel := newMag sqrt vel (Dbl.ofInt BOID_SPEED)
          pos := ⟨Dbl.ofInt (20 + px), Dbl.ofInt (20 + py)⟩
          accel := ⟨Dbl.ofInt 0, Dbl.ofInt 0⟩ }))

/-- The C character test `isspace` in the C locale, on the character code. -/
def isSpaceCode (c : Char) : Bool :=
  c.toNat = 32 || (9 ≤ c.toNat && c.toNat ≤ 13)

/-- The C character test `isdigit`, on the character code. -/
def isDigitCode (c : Char) : Bool :=
  48 ≤ c.toNat && c.toNat ≤ 57

/-- The leading white space that `atoi` skips. -/
def skipSpace : List Char → List Char
  | [] => []
  | c :: cs => if isSpaceCode c then skipSpace cs else c :: cs

/-- The digit loop of `atoi`: the decimal value of the longest prefix of digits, on top of
the value `acc` read so far. -/
def atoiDigits : Int → List Char → Int
  | acc, [] => acc
  | acc, c :: cs =>
    if isDigitCode c then atoiDigits (acc * 10 + ((c.toNat : Int) - 48)) cs else acc

/-- The part of `atoi` after the white space: an optional sign (`-` is code 45, `+` is
code 43) and the digits. -/
def atoiSigned : List Char → Int
  | [] => 0
  | c :: cs =>
    if c.toNat = 45 then -atoiDigits 0 cs
    else if c.toNat = 43 then atoiDigits 0 cs
    else atoiDigits 0 (c :: cs)

/-- The C library function `atoi` on a string given as its characters: the value of the
initial integer text, `0` when there is none; a value outside the range of `int` is
undefined behaviour (`none`). -/
def atoi (s : List Char) : Option Int :=
  if Dbl.INT_MIN ≤ atoiSigned (skipSpace s) ∧ atoiSigned (skipSpace s) ≤ Dbl.INT_MAX then
    some (atoiSigned (skipSpace s))
  else none

/-- The selection of `NUM_BOIDS` at the start of `main`: `arg` is `argv[1]`, `none` when
it is the null pointer. -/
def selectNumBoids (arg : Option (List Char)) : Option Int :=
  match arg with
  | none => some DEFAULT_NUM_BOIDS
  | some s => atoi s

/-- The decimal text of a natural number, most significant digit first. -/
def decimal (n : Nat) : List Char :=
  ((Nat.digits 10 n).reverse).map Nat.digitChar

end Startup

/-! ## Arithmetic of finite doubles -/

section DblLemmas

variable {F : Type} [LinearOrderedField F]

@[simp] theorem fin_add_fin (a b : F) : (Dbl.fin a + Dbl.fin b : Dbl F) = Dbl.fin (a + b) :=
  rfl

@[simp] theorem fin_sub_fin (a b : F) : (Dbl.fin a - Dbl.fin b : Dbl F) = Dbl.fin (a - b) := by
  show Dbl.add (Dbl.fin a) (Dbl.neg (Dbl.fin b)) = _
  simp [Dbl.add, Dbl.neg, sub_eq_add_neg]

@[simp] theorem fin_mul_fin (a b : F) : (Dbl.fin a * Dbl.fin b : Dbl F) = Dbl.fin (a * b) :=
  rfl

theorem fin_div_fin (a : F) {b : F} (hb : b ≠ 0) :
    (Dbl.fin a / Dbl.fin b : Dbl F) = Dbl.fin (a / b) := by
  show Dbl.div (Dbl.fin a) (Dbl.fin b) = _
  simp [Dbl.div, hb]

theorem fin_one_div_zero : (Dbl.fin 1 / Dbl.fin 0 : Dbl F) = Dbl.pinf := by
  show Dbl.div (Dbl.fin 1) (Dbl.fin 0) = _
  simp [Dbl.div]

theorem fin_zero_mul_pinf : (Dbl.fin 0 * Dbl.pinf : Dbl F) = Dbl.nan := by
  show Dbl.mul (Dbl.fin 0) Dbl.pinf = _
  simp [Dbl.mul, Dbl.mulInf]

@[simp] theorem nan_mul (d : Dbl F) : (Dbl.nan * d : Dbl F) = Dbl.nan := by
  show Dbl.mul Dbl.nan d = _
  cases d <;> rfl

@[simp] theorem nan_add (d : Dbl F) : (Dbl.nan + d : Dbl F) = Dbl.nan := by
  show Dbl.add Dbl.nan d = _
  cases d <;> rfl

@[simp] theorem sqrt_fin (sqrt : F → F) {a : F} (ha : 0 ≤ a) :
    Dbl.sqrt sqrt (Dbl.fin a) = Dbl.fin (sqrt a) := by
  simp [Dbl.sqrt, not_lt.mpr ha]

@[simp] theorem sqrt_nan (sqrt : F → F) : Dbl.sqrt sqrt (Dbl.nan : Dbl F) = Dbl.nan :=
  rfl

@[simp] theorem lt_fin_fin (a b : F) : Dbl.lt (Dbl.fin a) (Dbl.fin b) = decide (a < b) :=
  rfl

@[simp] theorem eq_fin_fin (a b : F) : Dbl.eq (Dbl.fin a) (Dbl.fin b) = decide (a = b) :=
  rfl

@[simp] theorem le_fin_fin (a b : F) : Dbl.le (Dbl.fin a) (Dbl.fin b) = decide (a ≤ b) := by
  simp [Dbl.le, le_iff_lt_or_eq]

@[simp] theorem gt_fin_fin (a b : F) : Dbl.gt (Dbl.fin a) (Dbl.fin b) = decide (b < a) :=
  rfl

@[simp] theorem ge_fin_fin (a b : F) : Dbl.ge (Dbl.fin a) (Dbl.fin b) = decide (b ≤ a) := by
  simp [Dbl.ge]

@[simp] theorem lt_nan_left (d : Dbl F) : Dbl.lt Dbl.nan d = false := by
  cases d <;> rfl

@[simp] theorem lt_nan_right (d : Dbl F) : Dbl.lt d Dbl.nan = false := by
  cases d <;> rfl

@[simp] theorem eq_nan_left (d : Dbl F) : Dbl.eq Dbl.nan d = false := by
  cases d <;> rfl

@[simp] theorem eq_nan_right (d : Dbl F) : Dbl.eq d Dbl.nan = false := by
  cases d <;> rfl

/-- An exact square root undoes squaring on the non-negative values. -/
theorem sqrt_mul_self_of_exact {sqrt : F → F} (hs : SqrtExact sqrt) {a : F} (ha : 0 ≤ a) :
    sqrt (a * a) = a := by
  obtain ⟨h0, h1⟩ := hs (a * a) (mul_self_nonneg a)
  exact (mul_self_inj h0 ha).mp h1

/-- An exact square root sends zero to zero. -/
theorem sqrt_zero_of_exact {sqrt : F → F} (hs : SqrtExact sqrt) : sqrt 0 = 0 := by
  have h := sqrt_mul_self_of_exact hs (le_refl (0 : F))
  simpa using h

/-- The real square root is exact. -/
theorem sqrtExact_real : SqrtExact Real.sqrt :=
  fun x hx => ⟨Real.sqrt_nonneg x, Real.mul_self_sqrt hx⟩

/-- The magnitude of a finite vector. -/
theorem vecMag_fin (sqrt : F → F) (a b : F) :
    vecMag sqrt ⟨Dbl.fin a, Dbl.fin b⟩ = Dbl.fin (sqrt (a * a + b * b)) := by
  have h : (0 : F) ≤ a * a + b * b := add_nonneg (mul_self_nonneg a) (mul_self_nonneg b)
  simp [vecMag, h]

/-- On a finite vector whose squared magnitude exceeds `l * l`, `limit` multiplies
the vector by its magnitude and by `l`. -/
theorem limit_fin_gt {sqrt : F → F} (hs : SqrtExact sqrt) (a b c : F)
    (h : c * c < a * a + b * b) :
    limit sqrt ⟨Dbl.fin a, Dbl.fin b⟩ (Dbl.fin c) =
      ⟨Dbl.fin (a * sqrt (a * a + b * b) * c), Dbl.fin (b * sqrt (a * a + b * b) * c)⟩ := by
  have hn : (0 : F) ≤ a * a + b * b := add_nonneg (mul_self_nonneg a) (mul_self_nonneg b)
  obtain ⟨h0, h1⟩ := hs (a * a + b * b) hn
  have hm : sqrt (a * a + b * b) ≠ 0 := by
    intro hz
    rw [hz] at h1
    have : (0 : F) ≤ c * c := mul_self_nonneg c
    linarith
  have hgt : c * c < sqrt (a * a + b * b) * sqrt (a * a + b * b) := by rw [h1]; exact h
  have hx : a * (1 / sqrt (a * a + b * b)) * (a * a + b * b) * c
      = a * sqrt (a * a + b * b) * c := by
    nth_rewrite 2 [← h1]
    field_simp
    ring
  have hy : b * (1 / sqrt (a * a + b * b)) * (a * a + b * b) * c
      = b * sqrt (a * a + b * b) * c := by
    nth_rewrite 2 [← h1]
    field_simp
    ring
  simp only [limit, newMag, norm, scale, vecMag_fin, fin_mul_fin, gt_fin_fin,
    fin_div_fin 1 hm, h1, hx, hy, h, decide_True, if_true]

/-- A finite vector whose squared magnitude does not exceed `l * l` is returned by `limit`
unchanged. -/
theorem limit_fin_le (sqrt : F → F) (hs : SqrtExact sqrt) (a b c : F)
    (h : a * a + b * b ≤ c * c) :
    limit sqrt ⟨Dbl.fin a, Dbl.fin b⟩ (Dbl.fin c) = ⟨Dbl.fin a, Dbl.fin b⟩ := by
  have hn : (0 : F) ≤ a * a + b * b := add_nonneg (mul_self_nonneg a) (mul_self_nonneg b)
  obtain ⟨_, h1⟩ := hs (a * a + b * b) hn
  simp [limit, vecMag_fin, h1, not_lt.mpr h]

/-- The real square root of a square of a non-negative number. -/
theorem real_sqrt_eq {x y : ℝ} (hy : 0 ≤ y) (h : y * y = x) : Real.sqrt x = y := by
  rw [← h]
  exact Real.sqrt_mul_self hy

/-- Rounding fixes the integers. -/
theorem roundHalfAway_intCast [FloorRing F] (n : Int) : Dbl.roundHalfAway (n : F) = n := by
  unfold Dbl.roundHalfAway
  split
  · rw [Int.floor_eq_iff]
    constructor
    · linarith
    · linarith
  · rw [Int.ceil_eq_iff]
    constructor
    · linarith
    · linarith

/-- Rounding a non-negative value gives a non-negative integer. -/
theorem roundHalfAway_nonneg [FloorRing F] {a : F} (ha : 0 ≤ a) : 0 ≤ Dbl.roundHalfAway a := by
  unfold Dbl.roundHalfAway
  rw [if_pos ha]
  exact Int.floor_nonneg.mpr (by linarith)

/-- Rounding a value that is `<= 0` gives an integer that is `<= 0`. -/
theorem roundHalfAway_nonpos [FloorRing F] {a : F} (ha : a ≤ 0) : Dbl.roundHalfAway a ≤ 0 := by
  unfold Dbl.roundHalfAway
  split
  · have h1 : ⌊a + 1 / 2⌋ < 1 := by
      rw [Int.floor_lt]
      push_cast
      linarith
    omega
  · rw [Int.ceil_le]
    push_cast
    linarith

/-- Truncation fixes the integers. -/
theorem trunc_intCast [FloorRing F] (n : Int) : Dbl.trunc (n : F) = n := by
  unfold Dbl.trunc
  split
  · exact Int.floor_intCast n
  · exact Int.ceil_intCast n

/-- The `int` overload of `wrap` on a summed coordinate that is `<= 0`. -/
theorem wrap_fin_nonpos [FloorRing F] {a : F} (ha : a ≤ 0) (E : Int) :
    wrap (Dbl.fin a) E = some E := by
  simp [wrap, ha]

/-- The `int` overload of `wrap` on a positive summed coordinate whose rounding fits
an `int`. -/
theorem wrap_fin_pos [FloorRing F] {a : F} (ha : 0 < a) {E : Int} (hE : E ≠ 0)
    (hr : Dbl.roundHalfAway a ≤ Dbl.INT_MAX) :
    wrap (Dbl.fin a) E = some (Int.tmod (Dbl.roundHalfAway a) E) := by
  have h0 : 0 ≤ Dbl.roundHalfAway a := roundHalfAway_nonneg (le_of_lt ha)
  have hmin : Dbl.INT_MIN ≤ Dbl.roundHalfAway a := by
    unfold Dbl.INT_MIN
    omega
  simp [wrap, not_le.mpr ha, Dbl.round, Dbl.toInt, trunc_intCast, hmin, hr, imod, hE]

/-- The `int` overload of `wrap` on a finite summed coordinate whose rounding fits an
`int`. -/
theorem wrap_fin [FloorRing F] (a : F) {E : Int} (hE : E ≠ 0)
    (hr : Dbl.roundHalfAway a ≤ Dbl.INT_MAX) :
    wrap (Dbl.fin a) E = some (if a ≤ 0 then E else Int.tmod (Dbl.roundHalfAway a) E) := by
  split
  · rename_i h
    exact wrap_fin_nonpos h E
  · rename_i h
    exact wrap_fin_pos (not_le.mp h) hE hr

/-- A defined result of the `int` overload of `wrap` lies between `0` and the extent. -/
theorem wrap_bounds [FloorRing F] {v : Dbl F} {E r : Int} (hE : 0 < E)
    (h : wrap v E = some r) : 0 ≤ r ∧ r ≤ E := by
  unfold wrap at h
  split at h
  · simp only [Option.some.injEq] at h
    omega
  · rename_i hle
    cases v with
    | fin a =>
      have ha : 0 < a := by
        have := hle
        simp only [le_fin_fin, decide_eq_true_eq, not_le] at this
        exact this
      have h0 : 0 ≤ Dbl.roundHalfAway a := roundHalfAway_nonneg (le_of_lt ha)
      simp only [Dbl.round, Dbl.toInt, trunc_intCast] at h
      split at h
      · simp only [Option.some_bind, imod, (ne_of_gt hE), if_false, Option.some.injEq] at h
        rw [← h]
        exact ⟨Int.tmod_nonneg _ h0, le_of_lt (Int.tmod_lt_of_pos _ hE)⟩
      · simp at h
    | pinf => simp [Dbl.round, Dbl.toInt] at h
    | ninf => simp [Dbl.round, Dbl.toInt] at h
    | nan => simp [Dbl.round, Dbl.toInt] at h

/-- A defined result of `addMod` has integer coordinates between `0` and the extents. -/
theorem addMod_bounds [FloorRing F] {W H : Int} (hW : 0 < W) (hH : 0 < H) {a b p : Vec2 F}
    (h : addMod W H a b = some p) :
    ∃ xi yi : Int, p = ⟨Dbl.ofInt xi, Dbl.ofInt yi⟩ ∧ 0 ≤ xi ∧ xi ≤ W ∧ 0 ≤ yi ∧ yi ≤ H := by
  unfold addMod at h
  cases hx : wrap (a.x + b.x) W with
  | none => simp [hx] at h
  | some xi =>
    cases hy : wrap (a.y + b.y) H with
    | none => simp [hx, hy] at h
    | some yi =>
      simp only [hx, hy, Option.some_bind, Option.some.injEq] at h
      obtain ⟨hx0, hx1⟩ := wrap_bounds hW hx
      obtain ⟨hy0, hy1⟩ := wrap_bounds hH hy
      exact ⟨xi, yi, h.symm, hx0, hx1, hy0, hy1⟩

/-- The function `addMod` on finite vectors whose rounded coordinate sums fit an `int`. -/
theorem addMod_fin [FloorRing F] (ax ay bx by_ : F) (W H : Int) (hW : 0 < W) (hH : 0 < H)
    (hx : Dbl.roundHalfAway (ax + bx) ≤ Dbl.INT_MAX)
    (hy : Dbl.roundHalfAway (ay + by_) ≤ Dbl.INT_MAX) :
    addMod W H ⟨Dbl.fin ax, Dbl.fin ay⟩ ⟨Dbl.fin bx, Dbl.fin by_⟩ =
      some ⟨Dbl.ofInt (if ax + bx ≤ 0 then W else Int.tmod (Dbl.roundHalfAway (ax + bx)) W),
        Dbl.ofInt (if ay + by_ ≤ 0 then H else Int.tmod (Dbl.roundHalfAway (ay + by_)) H)⟩ := by
  simp only [addMod, fin_add_fin, wrap_fin _ (ne_of_gt hW) hx, wrap_fin _ (ne_of_gt hH) hy,
    Option.some_bind]

/-- The distance between two finite points. -/
theorem dist_fin (sqrt : F → F) (x0 x1 y0 y1 : F) :
    dist sqrt (Dbl.fin x0) (Dbl.fin x1) (Dbl.fin y0) (Dbl.fin y1) =
      Dbl.fin (sqrt ((x1 - x0) * (x1 - x0) + (y1 - y0) * (y1 - y0))) := by
  have h : (0 : F) ≤ (x1 - x0) * (x1 - x0) + (y1 - y0) * (y1 - y0) :=
    add_nonneg (mul_self_nonneg _) (mul_self_nonneg _)
  simp [dist, h]

/-- The zero vector passes through `limit` unchanged. -/
theorem limit_zero {sqrt : F → F} (hs : SqrtExact sqrt) (c : F) :
    limit sqrt (Vec2.zero : Vec2 F) (Dbl.fin c) = Vec2.zero := by
  unfold Vec2.zero
  apply limit_fin_le sqrt hs
  have : (0 : F) ≤ c * c := mul_self_nonneg c
  simpa using this

/-- The zero vector passes through `limit` unchanged for each behaviour constant. -/
theorem limit_zero_scaler {sqrt : F → F} (hs : SqrtExact sqrt) (f : Flag) :
    limit sqrt (Vec2.zero : Vec2 F) (scaler f) = Vec2.zero := by
  cases f <;> exact limit_zero hs _

/-- A scan that meets no counted neighbour leaves the running sum and counter as they were. -/
theorem steerScan_no_neighbour (sqrt : F → F) (f : Flag) (current : Boid F) :
    ∀ (boids : List (Boid F)) (acc : Vec2 F × Nat),
      (∀ b ∈ boids, isNeighbour current b
        (dist sqrt current.pos.x b.pos.x current.pos.y b.pos.y) = false) →
      steerScan sqrt f current boids acc = acc
  | [], _, _ => rfl
  | b :: rest, (avg, total), h => by
    have hb := h b (List.mem_cons_self b rest)
    have hrest := steerScan_no_neighbour sqrt f current rest (avg, total)
      (fun c hc => h c (List.mem_cons_of_mem b hc))
    simp [steerScan, hb, hrest]

/-- With no counted neighbour `steer` returns the zero vector. -/
theorem steer_no_neighbour {sqrt : F → F} (hs : SqrtExact sqrt) (current : Boid F)
    (boids : List (Boid F)) (f : Flag)
    (h : ∀ b ∈ boids, isNeighbour current b
      (dist sqrt current.pos.x b.pos.x current.pos.y b.pos.y) = false) :
    steer sqrt current boids f = Vec2.zero := by
  simp [steer, steerScan_no_neighbour sqrt f current boids _ h, limit_zero_scaler hs]

/-- The distance of a point to itself is not below the sight radius when a coordinate is
not finite, and the point does not differ from itself when both are finite: a boid is
never its own counted neighbour. -/
theorem isNeighbour_self (sqrt : F → F) (b : Boid F) :
    isNeighbour b b (dist sqrt b.pos.x b.pos.x b.pos.y b.pos.y) = false := by
  obtain ⟨vel, ⟨px, py⟩, accel⟩ := b
  cases px <;> cases py <;>
    simp [isNeighbour, Vec2.ne, dist, Dbl.eq, Dbl.sqrt, Dbl.lt, BOID_SIGHT_RADIUS,
      HSub.hSub, Sub.sub, HAdd.hAdd, Add.add, HMul.hMul, Mul.mul, Dbl.sub, Dbl.add, Dbl.neg,
      Dbl.mul]

/-- Scanning a population with `current` stored at index `i` gives the same sum and
counter as scanning the population with that entry removed. -/
theorem steerScan_eraseIdx (sqrt : F → F) (f : Flag) (current : Boid F) :
    ∀ (boids : List (Boid F)) (i : Nat) (acc : Vec2 F × Nat),
      boids[i]? = some current →
      steerScan sqrt f current boids acc = steerScan sqrt f current (boids.eraseIdx i) acc
  | [], _, _, h => by simp at h
  | b :: rest, 0, (avg, total), h => by
    simp only [List.getElem?_cons_zero, Option.some.injEq] at h
    subst h
    simp [steerScan, isNeighbour_self, List.eraseIdx]
  | b :: rest, i + 1, (avg, total), h => by
    simp only [List.getElem?_cons_succ] at h
    simp only [steerScan, List.eraseIdx]
    split
    · exact steerScan_eraseIdx sqrt f current rest i _ h
    · exact steerScan_eraseIdx sqrt f current rest i _ h

/-- One iteration of the loop on an index whose boid integrates. -/
theorem tickBody_eq [FloorRing F] (sqrt : F → F) (W H : Int) (boids : List (Boid F)) (i : Nat)
    {b b1 : Boid F} (hb : boids[i]? = some b) (h1 : integrate W H b = some b1) :
    tickBody sqrt W H boids i = some (boids.set i (finalBoid sqrt boids i b1)) := by
  simp [tickBody, hb, h1, finalBoid]

/-- The minimum-speed step touches neither position nor acceleration. -/
theorem enforceSpeed_pos_accel (sqrt : F → F) (b : Boid F) :
    (enforceSpeed sqrt b).pos = b.pos ∧ (enforceSpeed sqrt b).accel = b.accel := by
  unfold enforceSpeed
  split <;> simp

/-- The loop from index `i`: it returns when every boid from `i` on integrates, keeps the
entries below `i`, and leaves each later entry `j` in the state computed from the array made
of the final entries below `j` and the initial entries from `j` on. -/
theorem tickFrom_spec [FloorRing F] (sqrt : F → F) (W H : Int) :
    ∀ (n i : Nat) (boids : List (Boid F)), i + n = boids.length →
      (∀ j b, i ≤ j → boids[j]? = some b → ∃ b1, integrate W H b = some b1) →
      ∃ result, tickFrom sqrt W H n i boids = some result ∧ result.length = boids.length ∧
        (∀ j, j < i → result[j]? = boids[j]?) ∧
        (∀ j b, i ≤ j → boids[j]? = some b → ∃ b1, integrate W H b = some b1 ∧
          result[j]? = some (finalBoid sqrt (result.take j ++ boids.drop j) j b1))
  | 0, i, boids, hlen, _ => by
    refine ⟨boids, rfl, rfl, fun _ _ => rfl, ?_⟩
    intro j b hij hb
    have : j < boids.length := (List.getElem?_eq_some.mp hb).1
    omega
  | n + 1, i, boids, hlen, hdef => by
    have hi : i < boids.length := by omega
    have hbi : boids[i]? = some boids[i] := List.getElem?_eq_getElem hi
    obtain ⟨b1, hb1⟩ := hdef i boids[i] (le_refl i) hbi
    have hlen2 : i + 1 + n = (boids.set i (finalBoid sqrt boids i b1)).length := by
      rw [List.length_set]; omega
    have hdef2 : ∀ j b, i + 1 ≤ j → (boids.set i (finalBoid sqrt boids i b1))[j]? = some b →
        ∃ b1, integrate W H b = some b1 := by
      intro j b hij hb
      rw [List.getElem?_set_ne (by omega)] at hb
      exact hdef j b (by omega) hb
    obtain ⟨result, hres, hl, hlow, hhigh⟩ :=
      tickFrom_spec sqrt W H n (i + 1) (boids.set i (finalBoid sqrt boids i b1)) hlen2 hdef2
    have hlow2 : ∀ j, j < i → result[j]? = boids[j]? := by
      intro j hj
      rw [hlow j (by omega), List.getElem?_set_ne (by omega)]
    have htake : result.take i ++ boids.drop i = boids := by
      have : result.take i = boids.take i := by
        apply List.ext_getElem?
        intro k
        rw [List.getElem?_take, List.getElem?_take]
        split
        · rename_i hk
          exact hlow2 k hk
        · rfl
      rw [this, List.take_append_drop]
    refine ⟨result, ?_, ?_, hlow2, ?_⟩
    · simp only [tickFrom, tickBody_eq sqrt W H boids i hbi hb1, Option.some_bind, hres]
    · rw [hl, List.length_set]
    · intro j b hij hb
      rcases Nat.eq_or_lt_of_le hij with heq | hlt
      · subst heq
        rw [hbi] at hb
        simp only [Option.some.injEq] at hb
        subst hb
        refine ⟨b1, hb1, ?_⟩
        rw [hlow i (by omega), List.getElem?_set_self hi, htake]
      · have hb2 : (boids.set i (finalBoid sqrt boids i b1))[j]? = some b := by
          rw [List.getElem?_set_ne (by omega)]; exact hb
        obtain ⟨b2, hb21, hb22⟩ := hhigh j b (by omega) hb2
        refine ⟨b2, hb21, ?_⟩
        rw [hb22, List.drop_set_of_lt _ _ hlt]

/-- One tick of a population all of whose boids integrate. -/
theorem tick_spec [FloorRing F] (sqrt : F → F) (W H : Int) (boids : List (Boid F))
    (hdef : ∀ b ∈ boids, ∃ b1, integrate W H b = some b1) :
    ∃ result, tick sqrt W H boids = some result ∧ result.length = boids.length ∧
      (∀ j b, boids[j]? = some b → ∃ b1, integrate W H b = some b1 ∧
        result[j]? = some (finalBoid sqrt (result.take j ++ boids.drop j) j b1)) := by
  obtain ⟨result, h1, h2, _, h4⟩ := tickFrom_spec sqrt W H boids.length 0 boids (by simp)
    (fun j b _ hb => hdef b (List.getElem?_mem hb))
  exact ⟨result, h1, h2, fun j b hb => h4 j b (Nat.zero_le j) hb⟩

/-- The function `integrate` is defined exactly when `addMod` is, and only moves the
position to the result of `addMod`. -/
theorem integrate_eq_some [FloorRing F] {W H : Int} {b b1 : Boid F}
    (h : integrate W H b = some b1) :
    addMod W H b.pos b.vel = some b1.pos ∧ b1.vel = add b.vel b.accel ∧ b1.accel = b.accel := by
  unfold integrate at h
  cases hp : addMod W H b.pos b.vel with
  | none => simp [hp] at h
  | some p =>
    simp only [hp, Option.some_bind, Option.some.injEq] at h
    subst h
    exact ⟨rfl, rfl, rfl⟩

/-- A boid whose `addMod` is defined integrates. -/
theorem integrate_of_addMod [FloorRing F] {W H : Int} {b : Boid F}
    (h : (addMod W H b.pos b.vel).isSome = true) : ∃ b1, integrate W H b = some b1 := by
  obtain ⟨p, hp⟩ := Option.isSome_iff_exists.mp h
  exact ⟨{ b with pos := p, vel := add b.vel b.accel }, by simp [integrate, hp]⟩

/-- After one tick of a population whose position integrations are defined, every position
has integer coordinates between `0` and the extents, both ends included. -/
theorem tick_pos_bounds [FloorRing F] (sqrt : F → F) (W H : Int) (hW : 0 < W) (hH : 0 < H)
    (boids : List (Boid F))
    (hdef : ∀ b ∈ boids, (addMod W H b.pos b.vel).isSome = true) :
    ∃ result, tick sqrt W H boids = some result ∧ result.length = boids.length ∧
      ∀ b ∈ result, ∃ xi yi : Int, b.pos = ⟨Dbl.ofInt xi, Dbl.ofInt yi⟩ ∧
        0 ≤ xi ∧ xi ≤ W ∧ 0 ≤ yi ∧ yi ≤ H := by
  obtain ⟨result, h1, h2, h3⟩ := tick_spec sqrt W H boids
    (fun b hb => integrate_of_addMod (hdef b hb))
  refine ⟨result, h1, h2, ?_⟩
  intro b' hb'
  obtain ⟨j, hj⟩ := List.mem_iff_getElem?.mp hb'
  have hjlt : j < boids.length := by
    rw [← h2]; exact (List.getElem?_eq_some.mp hj).1
  obtain ⟨b1, hb1, hres⟩ := h3 j boids[j] (List.getElem?_eq_getElem hjlt)
  rw [hj] at hres
  simp only [Option.some.injEq] at hres
  have hpos : b'.pos = b1.pos := by
    rw [hres, finalBoid, (enforceSpeed_pos_accel sqrt _).1]
  rw [hpos]
  exact addMod_bounds hW hH (integrate_eq_some hb1).1

/-- The steering of a boid alone in its population is zero. -/
theorem steering_alone {sqrt : F → F} (hs : SqrtExact sqrt) (b : Boid F) :
    steering sqrt b [b] = Vec2.zero := by
  have h : ∀ f, steer sqrt b [b] f = Vec2.zero := by
    intro f
    apply steer_no_neighbour hs
    intro c hc
    simp only [List.mem_singleton] at hc
    subst hc
    exact isNeighbour_self sqrt c
  simp [steering, h, add, Vec2.zero]

/-- One tick of a population of one boid. -/
theorem tick_singleton [FloorRing F] {sqrt : F → F} (hs : SqrtExact sqrt) (W H : Int)
    {b b1 : Boid F} (h1 : integrate W H b = some b1) :
    tick sqrt W H [b] = some [enforceSpeed sqrt { b1 with accel := Vec2.zero }] := by
  simp [tick, tickFrom, tickBody, h1, steering_alone hs]

/-- Division of finite doubles, in full. -/
theorem fin_div_fin_eq (a b : F) :
    (Dbl.fin a / Dbl.fin b : Dbl F) =
      if b = 0 then (if a = 0 then Dbl.nan else if 0 < a then Dbl.pinf else Dbl.ninf)
      else Dbl.fin (a / b) :=
  rfl

/-- With an exact square root, `norm` of the zero vector is `(NaN, NaN)`. -/
theorem norm_zero {sqrt : F → F} (hs : SqrtExact sqrt) :
    norm sqrt (Vec2.zero : Vec2 F) = ⟨Dbl.nan, Dbl.nan⟩ := by
  simp [norm, scale, Vec2.zero, vecMag_fin, sqrt_zero_of_exact hs, fin_one_div_zero,
    fin_zero_mul_pinf]

/-- With an exact square root, `newMag` of the zero vector is `(NaN, NaN)`. -/
theorem newMag_zero {sqrt : F → F} (hs : SqrtExact sqrt) (n : Dbl F) :
    newMag sqrt (Vec2.zero : Vec2 F) n = ⟨Dbl.nan, Dbl.nan⟩ := by
  simp [newMag, norm_zero hs, scale]

/-- Division of a finite double by one. -/
theorem fin_div_one (a : F) : (Dbl.fin a / Dbl.fin 1 : Dbl F) = Dbl.fin a := by
  rw [fin_div_fin a one_ne_zero, div_one]

/-- With an exact square root, the magnitude of a finite vector along the x axis. -/
theorem vecMag_axis {sqrt : F → F} (hs : SqrtExact sqrt) (a : F) :
    vecMag sqrt ⟨Dbl.fin a, Dbl.fin 0⟩ = Dbl.fin |a| := by
  rw [vecMag_fin]
  congr 1
  have h : a * a + 0 * 0 = |a| * |a| := by rw [abs_mul_abs_self]; ring
  rw [h]
  exact sqrt_mul_self_of_exact hs (abs_nonneg a)

/-- With an exact square root, the distance between two finite points of equal y. -/
theorem dist_axis {sqrt : F → F} (hs : SqrtExact sqrt) (x0 x1 y : F) :
    dist sqrt (Dbl.fin x0) (Dbl.fin x1) (Dbl.fin y) (Dbl.fin y) = Dbl.fin |x1 - x0| := by
  rw [dist_fin]
  congr 1
  have h : (x1 - x0) * (x1 - x0) + (y - y) * (y - y) = |x1 - x0| * |x1 - x0| := by
    rw [abs_mul_abs_self]; ring
  rw [h]
  exact sqrt_mul_self_of_exact hs (abs_nonneg _)

/-- With an exact square root, the clamp branch of `limit` on a finite vector along the
x axis. -/
theorem limit_axis_gt {sqrt : F → F} (hs : SqrtExact sqrt) (a c : F) (h : c * c < a * a) :
    limit sqrt ⟨Dbl.fin a, Dbl.fin 0⟩ (Dbl.fin c) = ⟨Dbl.fin (a * |a| * c), Dbl.fin 0⟩ := by
  have hs2 : sqrt (a * a + 0 * 0) = |a| := by
    have h2 : a * a + 0 * 0 = |a| * |a| := by rw [abs_mul_abs_self]; ring
    rw [h2]
    exact sqrt_mul_self_of_exact hs (abs_nonneg a)
  rw [limit_fin_gt hs a 0 c (by simpa using h), hs2]
  simp

/-- When each of the three `steer` results is zero, so is their sum. -/
theorem steering_of_steer_zero (sqrt : F → F) (current : Boid F) (boids : List (Boid F))
    (h : ∀ f, steer sqrt current boids f = Vec2.zero) :
    steering sqrt current boids = Vec2.zero := by
  simp only [steering, h]
  simp [add, Vec2.zero]

/-- After one tick of a population whose position integrations are defined, the
acceleration of agent `i` is the sum of the three `steer` results of the integrated agent
against the array made of the final entries below `i` and the initial entries above `i`;
for agent `0` that array is the snapshot of the specification. -/
theorem tick_accel_spec [FloorRing F] (sqrt : F → F) (W H : Int) (boids : List (Boid F))
    (hdef : ∀ b ∈ boids, (addMod W H b.pos b.vel).isSome = true) :
    ∃ result, tick sqrt W H boids = some result ∧ result.length = boids.length ∧
      (∀ i b, boids[i]? = some b → ∃ b1, integrate W H b = some b1 ∧
        result[i]?.map Boid.accel
          = some (steering sqrt b1 ((result.take i ++ boids.drop i).set i b1))) ∧
      result[0]?.map Boid.accel = snapshotSteering sqrt W H boids 0 := by
  obtain ⟨result, h1, h2, h3⟩ := tick_spec sqrt W H boids
    (fun b hb => integrate_of_addMod (hdef b hb))
  have h4 : ∀ i b, boids[i]? = some b → ∃ b1, integrate W H b = some b1 ∧
      result[i]?.map Boid.accel
        = some (steering sqrt b1 ((result.take i ++ boids.drop i).set i b1)) := by
    intro i b hb
    obtain ⟨b1, hb1, hres⟩ := h3 i b hb
    refine ⟨b1, hb1, ?_⟩
    rw [hres, Option.map_some', finalBoid, (enforceSpeed_pos_accel sqrt _).2]
  refine ⟨result, h1, h2, h4, ?_⟩
  cases hb : boids[0]? with
  | none =>
    have hlen : boids.length = 0 := by
      by_contra hne
      have : 0 < boids.length := Nat.pos_of_ne_zero hne
      rw [List.getElem?_eq_getElem this] at hb
      exact Option.noConfusion hb
    have hr : result[0]? = none := List.getElem?_eq_none (by omega)
    simp [snapshotSteering, hb, hr]
  | some b =>
    obtain ⟨b1, hb1, hacc⟩ := h4 0 b hb
    rw [hacc]
    simp [snapshotSteering, hb, hb1]

/-- On a finite non-zero vector whose squared magnitude is below `l * l`, `minLimit`
multiplies the vector by its magnitude and by `l`. -/
theorem minLimit_fin_lt {sqrt : F → F} (hs : SqrtExact sqrt) (a b c : F)
    (hpos : 0 < a * a + b * b) (h : a * a + b * b < c * c) :
    minLimit sqrt ⟨Dbl.fin a, Dbl.fin b⟩ (Dbl.fin c) =
      ⟨Dbl.fin (a * sqrt (a * a + b * b) * c), Dbl.fin (b * sqrt (a * a + b * b) * c)⟩ := by
  obtain ⟨h0, h1⟩ := hs (a * a + b * b) (le_of_lt hpos)
  have hm : sqrt (a * a + b * b) ≠ 0 := by
    intro hz
    rw [hz] at h1
    linarith
  have hx : a * (1 / sqrt (a * a + b * b)) * (a * a + b * b) * c
      = a * sqrt (a * a + b * b) * c := by
    nth_rewrite 2 [← h1]
    field_simp
    ring
  have hy : b * (1 / sqrt (a * a + b * b)) * (a * a + b * b) * c
      = b * sqrt (a * a + b * b) * c := by
    nth_rewrite 2 [← h1]
    field_simp
    ring
  simp only [minLimit, newMag, norm, scale, vecMag_fin, fin_mul_fin, lt_fin_fin,
    fin_div_fin 1 hm, h1, hx, hy, h, decide_True, if_true]

/-- When the summed x coordinate is `<= 0`, a defined `addMod` puts the x coordinate on
the width. -/
theorem addMod_x_of_le [FloorRing F] {W H : Int} {a b p : Vec2 F}
    (h : addMod W H a b = some p) (hx : Dbl.le (a.x + b.x) (Dbl.fin 0) = true) :
    p.x = Dbl.ofInt W := by
  unfold addMod at h
  have hw : wrap (a.x + b.x) W = some W := by simp [wrap, hx]
  rw [hw] at h
  cases hy : wrap (a.y + b.y) H with
  | none => simp [hy] at h
  | some yi =>
    simp only [hy, Option.some_bind, Option.some.injEq] at h
    rw [← h]

/-- After one tick of a population whose position integrations are defined, an agent whose
summed x coordinate was `<= 0` has its x coordinate on the width. -/
theorem tick_x_of_le [FloorRing F] (sqrt : F → F) (W H : Int) (boids : List (Boid F))
    (hdef : ∀ b ∈ boids, (addMod W H b.pos b.vel).isSome = true)
    (i : Nat) (b : Boid F) (hb : boids[i]? = some b)
    (hx : Dbl.le (b.pos.x + b.vel.x) (Dbl.fin 0) = true) :
    ∃ result b', tick sqrt W H boids = some result ∧ result[i]? = some b' ∧
      b'.pos.x = Dbl.ofInt W := by
  obtain ⟨result, h1, _, h3⟩ := tick_spec sqrt W H boids
    (fun b hb => integrate_of_addMod (hdef b hb))
  obtain ⟨b1, hb1, hres⟩ := h3 i b hb
  refine ⟨result, _, h1, hres, ?_⟩
  rw [finalBoid, (enforceSpeed_pos_accel sqrt _).1]
  exact addMod_x_of_le (integrate_eq_some hb1).1 hx

/-- The value of the `int` overload of `wrap` lies between `0` and a positive extent, and
is the extent exactly when the summed coordinate is `<= 0`. -/
theorem wrap_value_bounds [FloorRing F] (s : F) {E : Int} (hE : 0 < E) :
    0 ≤ (if s ≤ 0 then E else Int.tmod (Dbl.roundHalfAway s) E) ∧
    (if s ≤ 0 then E else Int.tmod (Dbl.roundHalfAway s) E) ≤ E ∧
    ((if s ≤ 0 then E else Int.tmod (Dbl.roundHalfAway s) E) = E ↔ s ≤ 0) ∧
    (¬ s ≤ 0 → (if s ≤ 0 then E else Int.tmod (Dbl.roundHalfAway s) E) < E) := by
  by_cases h : s ≤ 0
  · simp only [h, if_true, le_refl, true_iff, not_true_eq_false, false_implies, and_true]
    exact le_of_lt hE
  · have h0 : 0 ≤ Dbl.roundHalfAway s := roundHalfAway_nonneg (le_of_lt (not_le.mp h))
    have hlt : Int.tmod (Dbl.roundHalfAway s) E < E := Int.tmod_lt_of_pos _ hE
    have hge : 0 ≤ Int.tmod (Dbl.roundHalfAway s) E := Int.tmod_nonneg _ h0
    simp only [h, if_false, iff_false, not_false_eq_true, true_implies]
    exact ⟨hge, le_of_lt hlt, ne_of_lt hlt, hlt⟩

/-- On finite vectors `addMod` gives integer coordinates within the closed extents, the
extent being reached exactly by a summed coordinate `<= 0`. -/
theorem addMod_closed_bounds [FloorRing F] (ax ay bx by_ : F) (W H : Int) (hW : 0 < W)
    (hH : 0 < H) (hx : Dbl.roundHalfAway (ax + bx) ≤ Dbl.INT_MAX)
    (hy : Dbl.roundHalfAway (ay + by_) ≤ Dbl.INT_MAX) :
    ∃ xi yi : Int,
      addMod W H ⟨Dbl.fin ax, Dbl.fin ay⟩ ⟨Dbl.fin bx, Dbl.fin by_⟩
        = some ⟨Dbl.ofInt xi, Dbl.ofInt yi⟩ ∧
      (0 ≤ xi ∧ xi ≤ W ∧ (xi = W ↔ ax + bx ≤ 0) ∧ (¬ ax + bx ≤ 0 → xi < W)) ∧
      (0 ≤ yi ∧ yi ≤ H ∧ (yi = H ↔ ay + by_ ≤ 0) ∧ (¬ ay + by_ ≤ 0 → yi < H)) :=
  ⟨_, _, addMod_fin ax ay bx by_ W H hW hH hx hy, wrap_value_bounds (ax + bx) hW,
    wrap_value_bounds (ay + by_) hH⟩

/-- Negating both operands of a division by a non-zero divisor leaves the quotient. -/
theorem div_neg_neg (x y : Dbl F) (hx : x ≠ Dbl.fin 0) :
    (Dbl.neg y / Dbl.neg x : Dbl F) = y / x := by
  show Dbl.div (Dbl.neg y) (Dbl.neg x) = Dbl.div y x
  cases x with
  | fin b =>
    have hb : b ≠ 0 := fun h => hx (by rw [h])
    cases y with
    | fin a => simp [Dbl.div, Dbl.neg, hb, neg_div_neg_eq]
    | pinf =>
      rcases lt_or_gt_of_ne hb with h | h
      · simp [Dbl.div, Dbl.neg, not_le.mpr h, le_of_lt h]
      · simp [Dbl.div, Dbl.neg, not_le.mpr h, le_of_lt h]
    | ninf =>
      rcases lt_or_gt_of_ne hb with h | h
      · simp [Dbl.div, Dbl.neg, not_le.mpr h, le_of_lt h]
      · simp [Dbl.div, Dbl.neg, not_le.mpr h, le_of_lt h]
    | nan => simp [Dbl.div, Dbl.neg]
  | pinf => cases y <;> simp [Dbl.div, Dbl.neg]
  | ninf => cases y <;> simp [Dbl.div, Dbl.neg]
  | nan => cases y <;> simp [Dbl.div, Dbl.neg]

/-- The display angle of a vector and of its opposite agree when the x component is not
zero. -/
theorem vecDir_neg (atan : Dbl F → Dbl F) (v : Vec2 F) (hx : v.x ≠ Dbl.fin 0) :
    vecDir atan (Vec2.neg v) = vecDir atan v := by
  simp only [vecDir, Vec2.neg, div_neg_neg v.x v.y hx]

/-- The character of a decimal digit has the digit's code. -/
theorem digitChar_code : ∀ d, d < 10 → (Nat.digitChar d).toNat = 48 + d := by
  decide

/-- The digit loop of `atoi` on the characters of a list of decimal digits. -/
theorem atoiDigits_map : ∀ (ds : List Nat) (acc : Int), (∀ d ∈ ds, d < 10) →
    atoiDigits acc (ds.map Nat.digitChar)
      = ds.foldl (fun (a : Int) (d : Nat) => a * 10 + (d : Int)) acc
  | [], _, _ => rfl
  | d :: ds, acc, h => by
    have hd : d < 10 := h d (List.mem_cons_self d ds)
    have hc := digitChar_code d hd
    have hdig : isDigitCode (Nat.digitChar d) = true := by
      simp only [isDigitCode, hc, Bool.and_eq_true, decide_eq_true_eq]
      omega
    have hval : ((Nat.digitChar d).toNat : Int) - 48 = (d : Int) := by
      rw [hc]; push_cast; ring
    simp only [List.map_cons, atoiDigits, hdig, if_true, hval, List.foldl_cons]
    exact atoiDigits_map ds _ (fun e he => h e (List.mem_cons_of_mem d he))

/-- Neither white space nor a sign precedes the characters of a list of decimal digits. -/
theorem atoi_map_digits (ds : List Nat) (h : ∀ d ∈ ds, d < 10) :
    atoiSigned (skipSpace (ds.map Nat.digitChar)) = atoiDigits 0 (ds.map Nat.digitChar) := by
  cases ds with
  | nil => rfl
  | cons d ds =>
    have hd : d < 10 := h d (List.mem_cons_self d ds)
    have hc := digitChar_code d hd
    have hsp : isSpaceCode (Nat.digitChar d) = false := by
      simp only [isSpaceCode, hc, Bool.or_eq_false_iff, decide_eq_false_iff_not,
        Bool.and_eq_false_iff]
      omega
    have h45 : ¬ (Nat.digitChar d).toNat = 45 := by rw [hc]; omega
    have h43 : ¬ (Nat.digitChar d).toNat = 43 := by rw [hc]; omega
    simp only [List.map_cons, skipSpace, hsp, Bool.false_eq_true, if_false, atoiSigned, h45, h43]

/-- Reading the decimal digits of `n`, most significant first, gives `n`. -/
theorem foldl_digits (n : Nat) :
    ((Nat.digits 10 n).reverse).foldl (fun (a : Int) (d : Nat) => a * 10 + (d : Int)) 0
      = (n : Int) := by
  rw [List.foldl_reverse]
  have h := Nat.ofDigits_eq_foldr (10 : Int) (Nat.digits 10 n)
  have h2 : List.foldr (fun (x : Nat) (y : Int) => y * 10 + (x : Int)) 0 (Nat.digits 10 n)
      = List.foldr (fun (x : Nat) (y : Int) => (x : Int) + 10 * y) 0 (Nat.digits 10 n) := by
    congr 1
    funext x y
    ring
  rw [h2, ← h]
  have h3 := Nat.coe_int_ofDigits 10 (Nat.digits 10 n)
  rw [Nat.ofDigits_digits] at h3
  exact_mod_cast h3.symm

/-- The function `atoi` on the decimal text of a natural number within the range of `int`. -/
theorem atoi_decimal (n : Nat) (hn : (n : Int) ≤ Dbl.INT_MAX) :
    atoi (decimal n) = some (n : Int) := by
  have hlt : ∀ d ∈ (Nat.digits 10 n).reverse, d < 10 := by
    intro d hd
    exact Nat.digits_lt_base (by decide) (List.mem_reverse.mp hd)
  have hv : atoiSigned (skipSpace (decimal n)) = (n : Int) := by
    unfold decimal
    rw [atoi_map_digits _ hlt, atoiDigits_map _ 0 hlt, foldl_digits]
  have hmin : Dbl.INT_MIN ≤ (n : Int) := by
    unfold Dbl.INT_MIN
    omega
  simp only [atoi, hv, hmin, hn, and_self, if_true]

/-- The function `atoi` on a text whose first character is neither white space, a sign nor
a digit. -/
theorem atoi_non_numeric (c : Char) (cs : List Char) (hsp : isSpaceCode c = false)
    (h45 : c.toNat ≠ 45) (h43 : c.toNat ≠ 43) (hdig : isDigitCode c = false) :
    atoi (c :: cs) = some 0 := by
  have hv : atoiSigned (skipSpace (c :: cs)) = 0 := by
    simp only [skipSpace, hsp, Bool.false_eq_true, if_false, atoiSigned, h45, h43, atoiDigits,
      hdig]
  simp only [atoi, hv]
  decide

end DblLemmas

/-! ## Theorems -/

section Claims

/-- C1 with the bound the code has: for every population whose position integrations are
defined (no coordinate sum is NaN or `+inf` or rounds outside the range of `int`) and all
positive extents `W`, `H`, one tick returns a population of the same size in which every
position has integer coordinates with `0 <= x <= W` and `0 <= y <= H`. -/
theorem tick_positions_within_extents {F : Type} [LinearOrderedField F] [FloorRing F]
    (sqrt : F → F) (W H : Int) (hW : 0 < W) (hH : 0 < H) (boids : List (Boid F))
    (hdef : ∀ b ∈ boids, (addMod W H b.pos b.vel).isSome = true) :
    ∃ result, tick sqrt W H boids = some result ∧ result.length = boids.length ∧
      ∀ b ∈ result, ∃ xi yi : Int, b.pos = ⟨Dbl.ofInt xi, Dbl.ofInt yi⟩ ∧
        0 ≤ xi ∧ xi ≤ W ∧ 0 ≤ yi ∧ yi ≤ H :=
  tick_pos_bounds sqrt W H hW hH boids hdef

/-- Witness of C1 with the bound the code has: one boid at `(0, 50)` with velocity
`(-7, 0)` in a 200 x 200 world. -/
theorem tick_positions_within_extents_witness :
    ∃ result,
      tick Real.sqrt 200 200
        [(⟨⟨Dbl.fin (-7), Dbl.fin 0⟩, ⟨Dbl.fin 0, Dbl.fin 50⟩, Vec2.zero⟩ : Boid ℝ)]
        = some result ∧
      result.length
        = [(⟨⟨Dbl.fin (-7), Dbl.fin 0⟩, ⟨Dbl.fin 0, Dbl.fin 50⟩, Vec2.zero⟩ : Boid ℝ)].length ∧
      ∀ b ∈ result, ∃ xi yi : Int, b.pos = ⟨Dbl.ofInt xi, Dbl.ofInt yi⟩ ∧
        0 ≤ xi ∧ xi ≤ 200 ∧ 0 ≤ yi ∧ yi ≤ 200 :=
  tick_positions_within_extents Real.sqrt 200 200 (by decide) (by decide) _ (by
    intro b hb
    simp only [List.mem_singleton] at hb
    subst hb
    rw [addMod_fin 0 50 (-7) 0 200 200 (by decide) (by decide)
      (le_trans (roundHalfAway_nonpos (by norm_num)) (by decide))
      (by norm_num [Dbl.roundHalfAway, Dbl.INT_MAX])]
    rfl)

/-- C1 fails as stated: in a 200 x 200 world, one tick of the population of one boid at
`(0, 50)` with velocity `(-7, 0)` leaves the boid at `(200, 50)`: its x coordinate equals
the width, so `x < W` does not hold. -/
theorem tick_position_reaches_extent :
    tick Real.sqrt 200 200
        [(⟨⟨Dbl.fin (-7), Dbl.fin 0⟩, ⟨Dbl.fin 0, Dbl.fin 50⟩, Vec2.zero⟩ : Boid ℝ)]
      = some [⟨⟨Dbl.fin (-7), Dbl.fin 0⟩, ⟨Dbl.fin 200, Dbl.fin 50⟩, Vec2.zero⟩] ∧
    Dbl.lt (Dbl.fin (200 : ℝ)) (Dbl.ofInt 200) = false := by
  have h49 : Real.sqrt ((-7) * (-7) + 0 * 0) = 7 := real_sqrt_eq (by norm_num) (by norm_num)
  have hr : Dbl.roundHalfAway ((50 : ℝ) + 0) = 50 := by norm_num [Dbl.roundHalfAway]
  have ht : Int.tmod 50 200 = 50 := by decide
  have hi : integrate 200 200
      (⟨⟨Dbl.fin (-7), Dbl.fin 0⟩, ⟨Dbl.fin 0, Dbl.fin 50⟩, Vec2.zero⟩ : Boid ℝ)
      = some ⟨⟨Dbl.fin (-7), Dbl.fin 0⟩, ⟨Dbl.fin 200, Dbl.fin 50⟩, Vec2.zero⟩ := by
    simp only [integrate]
    rw [addMod_fin 0 50 (-7) 0 200 200 (by decide) (by decide)
      (le_trans (roundHalfAway_nonpos (by norm_num)) (by decide)) (by rw [hr]; decide), hr, ht]
    norm_num [Dbl.ofInt, add, Vec2.zero]
  refine ⟨?_, by simp [Dbl.ofInt]⟩
  rw [tick_singleton sqrtExact_real 200 200 hi]
  simp only [enforceSpeed, vecMag_fin, h49, BOID_SPEED, Dbl.ofInt, lt_fin_fin]
  norm_num

/-- C2 fails on the code: in a 200 x 200 world, one tick of the population of one boid at
`(100, 100)` with velocity `(7, 0)` and acceleration `(-7, 0)` integrates the velocity to
`(0, 0)`, whose magnitude `0` is below `BOID_SPEED`, so the loop calls `newMag` on the zero
vector and stores the velocity `(NaN, NaN)`; its magnitude is NaN, and `NaN >= 7` is false. -/
theorem tick_zero_velocity_becomes_nan :
    tick Real.sqrt 200 200
        [(⟨⟨Dbl.fin 7, Dbl.fin 0⟩, ⟨Dbl.fin 100, Dbl.fin 100⟩, ⟨Dbl.fin (-7), Dbl.fin 0⟩⟩ :
          Boid ℝ)]
      = some [⟨⟨Dbl.nan, Dbl.nan⟩, ⟨Dbl.fin 107, Dbl.fin 100⟩, Vec2.zero⟩] ∧
    Dbl.ge (vecMag Real.sqrt (⟨Dbl.nan, Dbl.nan⟩ : Vec2 ℝ)) (Dbl.ofInt BOID_SPEED) = false := by
  have hrx : Dbl.roundHalfAway ((100 : ℝ) + 7) = 107 := by norm_num [Dbl.roundHalfAway]
  have hry : Dbl.roundHalfAway ((100 : ℝ) + 0) = 100 := by norm_num [Dbl.roundHalfAway]
  have htx : Int.tmod 107 200 = 107 := by decide
  have hty : Int.tmod 100 200 = 100 := by decide
  have hi : integrate 200 200
      (⟨⟨Dbl.fin 7, Dbl.fin 0⟩, ⟨Dbl.fin 100, Dbl.fin 100⟩, ⟨Dbl.fin (-7), Dbl.fin 0⟩⟩ : Boid ℝ)
      = some ⟨Vec2.zero, ⟨Dbl.fin 107, Dbl.fin 100⟩, ⟨Dbl.fin (-7), Dbl.fin 0⟩⟩ := by
    simp only [integrate]
    rw [addMod_fin 100 100 7 0 200 200 (by decide) (by decide)
      (by rw [hrx]; decide) (by rw [hry]; decide), hrx, hry, htx, hty]
    norm_num [Dbl.ofInt, add, Vec2.zero]
  constructor
  · rw [tick_singleton sqrtExact_real 200 200 hi]
    have hlt : Dbl.lt (vecMag Real.sqrt (Vec2.zero : Vec2 ℝ)) (Dbl.ofInt BOID_SPEED) = true := by
      simp [Vec2.zero, vecMag_fin, BOID_SPEED, Dbl.ofInt]
    simp only [enforceSpeed, hlt, if_true, newMag_zero sqrtExact_real]
  · simp [vecMag, Dbl.ge, Dbl.le]

/-- C3 fails on the code: over the reals, for the agent at `(100, 100)` with velocity
`(7, 0)` in the population of itself and a member at `(110, 100)` with velocity `(-7, 0)`,
`steer` with `ALIGN` returns `(-0.09212, 0)`, of magnitude `0.09212`, which is not at most
`MAX_ALN = 0.00047`: the desired change `(-14, 0)` is multiplied by `14 * 0.00047`. -/
theorem steer_align_exceeds_max :
    steer Real.sqrt
        (⟨⟨Dbl.fin 7, Dbl.fin 0⟩, ⟨Dbl.fin 100, Dbl.fin 100⟩, Vec2.zero⟩ : Boid ℝ)
        [⟨⟨Dbl.fin 7, Dbl.fin 0⟩, ⟨Dbl.fin 100, Dbl.fin 100⟩, Vec2.zero⟩,
          ⟨⟨Dbl.fin (-7), Dbl.fin 0⟩, ⟨Dbl.fin 110, Dbl.fin 100⟩, Vec2.zero⟩] Flag.ALIGN
      = ⟨Dbl.fin (-(2303 / 25000)), Dbl.fin 0⟩ ∧
    vecMag Real.sqrt (⟨Dbl.fin (-(2303 / 25000)), Dbl.fin 0⟩ : Vec2 ℝ) = Dbl.fin (2303 / 25000) ∧
    Dbl.le (Dbl.fin (2303 / 25000 : ℝ)) MAX_ALN = false := by
  have h100 : Real.sqrt 100 = 10 := real_sqrt_eq (by norm_num) (by norm_num)
  have h49 : Real.sqrt 49 = 7 := real_sqrt_eq (by norm_num) (by norm_num)
  have h196 : Real.sqrt ((-14) * (-14) + 0 * 0) = 14 := real_sqrt_eq (by norm_num) (by norm_num)
  have hm : Real.sqrt (-(2303 / 25000) * -(2303 / 25000) + 0 * 0) = 2303 / 25000 :=
    real_sqrt_eq (by norm_num) (by norm_num)
  have hl : limit Real.sqrt (⟨Dbl.fin (-14), Dbl.fin 0⟩ : Vec2 ℝ) (Dbl.fin (47 / 100000))
      = ⟨Dbl.fin (-(2303 / 25000)), Dbl.fin 0⟩ := by
    rw [limit_fin_gt sqrtExact_real (-14) 0 (47 / 100000) (by norm_num), h196]
    norm_num
  refine ⟨?_, ?_, ?_⟩
  · simp only [steer, steerScan, isNeighbour, Vec2.ne, dist_fin, contribution, eq_fin_fin,
      lt_fin_fin, BOID_SIGHT_RADIUS, add, Vec2.zero, fin_add_fin, Dbl.ofInt, fin_div_fin_eq,
      vecMag_fin, Dbl.isnan, sub, fin_sub_fin, scaler, MAX_ALN]
    have hne : (Flag.ALIGN = Flag.COHESE) = False := eq_false (by decide)
    norm_num [h100, h49, hl, Dbl.isnan, fin_div_one, vecMag_fin, fin_sub_fin, hne]
  · rw [vecMag_fin, hm]
  · simp only [MAX_ALN, le_fin_fin]
    norm_num

/-- C4 as the code has it: for every population whose position integrations are defined,
one tick returns, and the acceleration it assigns to agent `i` is the sum of the three
`steer` results of the integrated agent against the array as the in-place loop holds it at
that point: the agents before `i` as this tick has already left them, the agents after `i`
as they were at the start of the tick. For agent `0` this is the snapshot reading. -/
theorem tick_steers_in_place {F : Type} [LinearOrderedField F] [FloorRing F]
    (sqrt : F → F) (W H : Int) (boids : List (Boid F))
    (hdef : ∀ b ∈ boids, (addMod W H b.pos b.vel).isSome = true) :
    ∃ result, tick sqrt W H boids = some result ∧ result.length = boids.length ∧
      (∀ i b, boids[i]? = some b → ∃ b1, integrate W H b = some b1 ∧
        result[i]?.map Boid.accel
          = some (steering sqrt b1 ((result.take i ++ boids.drop i).set i b1))) ∧
      result[0]?.map Boid.accel = snapshotSteering sqrt W H boids 0 :=
  tick_accel_spec sqrt W H boids hdef

/-- Witness of C4 as the code has it: the two agents at `(100, 100)` and `(230, 100)` in a
400 x 400 world. -/
theorem tick_steers_in_place_witness :
    ∃ result,
      tick Real.sqrt 400 400
        [(⟨⟨Dbl.fin 7, Dbl.fin 0⟩, ⟨Dbl.fin 100, Dbl.fin 100⟩, Vec2.zero⟩ : Boid ℝ),
          ⟨⟨Dbl.fin (-7), Dbl.fin 0⟩, ⟨Dbl.fin 230, Dbl.fin 100⟩, Vec2.zero⟩] = some result ∧
      result.length
        = [(⟨⟨Dbl.fin 7, Dbl.fin 0⟩, ⟨Dbl.fin 100, Dbl.fin 100⟩, Vec2.zero⟩ : Boid ℝ),
          ⟨⟨Dbl.fin (-7), Dbl.fin 0⟩, ⟨Dbl.fin 230, Dbl.fin 100⟩, Vec2.zero⟩].length ∧
      (∀ i b,
        [(⟨⟨Dbl.fin 7, Dbl.fin 0⟩, ⟨Dbl.fin 100, Dbl.fin 100⟩, Vec2.zero⟩ : Boid ℝ),
          ⟨⟨Dbl.fin (-7), Dbl.fin 0⟩, ⟨Dbl.fin 230, Dbl.fin 100⟩, Vec2.zero⟩][i]? = some b →
        ∃ b1, integrate 400 400 b = some b1 ∧
          result[i]?.map Boid.accel
            = some (steering Real.sqrt b1 ((result.take i ++
              List.drop i
                [(⟨⟨Dbl.fin 7, Dbl.fin 0⟩, ⟨Dbl.fin 100, Dbl.fin 100⟩, Vec2.zero⟩ : Boid ℝ),
                  ⟨⟨Dbl.fin (-7), Dbl.fin 0⟩, ⟨Dbl.fin 230, Dbl.fin 100⟩, Vec2.zero⟩]).set
              i b1))) ∧
      result[0]?.map Boid.accel
        = snapshotSteering Real.sqrt 400 400
          [(⟨⟨Dbl.fin 7, Dbl.fin 0⟩, ⟨Dbl.fin 100, Dbl.fin 100⟩, Vec2.zero⟩ : Boid ℝ),
            ⟨⟨Dbl.fin (-7), Dbl.fin 0⟩, ⟨Dbl.fin 230, Dbl.fin 100⟩, Vec2.zero⟩] 0 :=
  tick_steers_in_place Real.sqrt 400 400 _ (by
    intro b hb
    simp only [List.mem_cons, List.mem_singleton, List.not_mem_nil, or_false] at hb
    rcases hb with rfl | rfl
    · rw [addMod_fin 100 100 7 0 400 400 (by decide) (by decide)
        (by norm_num [Dbl.roundHalfAway, Dbl.INT_MAX])
        (by norm_num [Dbl.roundHalfAway, Dbl.INT_MAX])]
      rfl
    · rw [addMod_fin 230 100 (-7) 0 400 400 (by decide) (by decide)
        (by norm_num [Dbl.roundHalfAway, Dbl.INT_MAX])
        (by norm_num [Dbl.roundHalfAway, Dbl.INT_MAX])]
      rfl)

/-- C4 fails as stated: in a 400 x 400 world take agent 0 at `(100, 100)` with velocity
`(7, 0)` and agent 1 at `(230, 100)` with velocity `(-7, 0)`. Agent 1, once moved to
`(223, 100)`, is `123` away from agent 0's pre-tick position, outside the sight radius, so
the snapshot reading gives it zero acceleration; the loop has already moved agent 0 to
`(107, 100)`, `116` away, and assigns agent 1 a non-zero acceleration. -/
theorem tick_reads_updated_neighbours :
    tick Real.sqrt 400 400
        [(⟨⟨Dbl.fin 7, Dbl.fin 0⟩, ⟨Dbl.fin 100, Dbl.fin 100⟩, Vec2.zero⟩ : Boid ℝ),
          ⟨⟨Dbl.fin (-7), Dbl.fin 0⟩, ⟨Dbl.fin 230, Dbl.fin 100⟩, Vec2.zero⟩]
      = some [⟨⟨Dbl.fin 7, Dbl.fin 0⟩, ⟨Dbl.fin 107, Dbl.fin 100⟩, Vec2.zero⟩,
          ⟨⟨Dbl.fin (-7), Dbl.fin 0⟩, ⟨Dbl.fin 223, Dbl.fin 100⟩,
            ⟨Dbl.fin (2487394447 / 420500000), Dbl.fin 0⟩⟩] ∧
    snapshotSteering Real.sqrt 400 400
        [(⟨⟨Dbl.fin 7, Dbl.fin 0⟩, ⟨Dbl.fin 100, Dbl.fin 100⟩, Vec2.zero⟩ : Boid ℝ),
          ⟨⟨Dbl.fin (-7), Dbl.fin 0⟩, ⟨Dbl.fin 230, Dbl.fin 100⟩, Vec2.zero⟩] 1
      = some Vec2.zero ∧
    (⟨Dbl.fin (2487394447 / 420500000), Dbl.fin 0⟩ : Vec2 ℝ) ≠ Vec2.zero := by
  have hs := sqrtExact_real
  have r107 : Dbl.roundHalfAway ((100 : ℝ) + 7) = 107 := by norm_num [Dbl.roundHalfAway]
  have r100 : Dbl.roundHalfAway ((100 : ℝ) + 0) = 100 := by norm_num [Dbl.roundHalfAway]
  have r223 : Dbl.roundHalfAway ((230 : ℝ) + -7) = 223 := by norm_num [Dbl.roundHalfAway]
  have t107 : Int.tmod 107 400 = 107 := by decide
  have t100 : Int.tmod 100 400 = 100 := by decide
  have t223 : Int.tmod 223 400 = 223 := by decide
  have hiA : integrate 400 400
      (⟨⟨Dbl.fin 7, Dbl.fin 0⟩, ⟨Dbl.fin 100, Dbl.fin 100⟩, Vec2.zero⟩ : Boid ℝ)
      = some ⟨⟨Dbl.fin 7, Dbl.fin 0⟩, ⟨Dbl.fin 107, Dbl.fin 100⟩, Vec2.zero⟩ := by
    simp only [integrate]
    rw [addMod_fin 100 100 7 0 400 400 (by decide) (by decide)
      (by rw [r107]; decide) (by rw [r100]; decide), r107, r100, t107, t100]
    norm_num [Dbl.ofInt, add, Vec2.zero]
  have hiB : integrate 400 400
      (⟨⟨Dbl.fin (-7), Dbl.fin 0⟩, ⟨Dbl.fin 230, Dbl.fin 100⟩, Vec2.zero⟩ : Boid ℝ)
      = some ⟨⟨Dbl.fin (-7), Dbl.fin 0⟩, ⟨Dbl.fin 223, Dbl.fin 100⟩, Vec2.zero⟩ := by
    simp only [integrate]
    rw [addMod_fin 230 100 (-7) 0 400 400 (by decide) (by decide)
      (by rw [r223]; decide) (by rw [r100]; decide), r223, r100, t223, t100]
    norm_num [Dbl.ofInt, add, Vec2.zero]
  have hstA : steering Real.sqrt
      (⟨⟨Dbl.fin 7, Dbl.fin 0⟩, ⟨Dbl.fin 107, Dbl.fin 100⟩, Vec2.zero⟩ : Boid ℝ)
      [⟨⟨Dbl.fin 7, Dbl.fin 0⟩, ⟨Dbl.fin 107, Dbl.fin 100⟩, Vec2.zero⟩,
        ⟨⟨Dbl.fin (-7), Dbl.fin 0⟩, ⟨Dbl.fin 230, Dbl.fin 100⟩, Vec2.zero⟩] = Vec2.zero := by
    have h : ∀ f, steer Real.sqrt
        (⟨⟨Dbl.fin 7, Dbl.fin 0⟩, ⟨Dbl.fin 107, Dbl.fin 100⟩, Vec2.zero⟩ : Boid ℝ)
        [⟨⟨Dbl.fin 7, Dbl.fin 0⟩, ⟨Dbl.fin 107, Dbl.fin 100⟩, Vec2.zero⟩,
          ⟨⟨Dbl.fin (-7), Dbl.fin 0⟩, ⟨Dbl.fin 230, Dbl.fin 100⟩, Vec2.zero⟩] f
        = Vec2.zero := by
      intro f
      apply steer_no_neighbour hs
      intro b hb
      simp only [List.mem_cons, List.mem_singleton, List.not_mem_nil, or_false] at hb
      rcases hb with rfl | rfl
      · exact isNeighbour_self _ _
      · simp only [isNeighbour, dist_axis hs, BOID_SIGHT_RADIUS, lt_fin_fin]
        norm_num
    exact steering_of_steer_zero _ _ _ h
  have hsnap : steering Real.sqrt
      (⟨⟨Dbl.fin (-7), Dbl.fin 0⟩, ⟨Dbl.fin 223, Dbl.fin 100⟩, Vec2.zero⟩ : Boid ℝ)
      [⟨⟨Dbl.fin 7, Dbl.fin 0⟩, ⟨Dbl.fin 100, Dbl.fin 100⟩, Vec2.zero⟩,
        ⟨⟨Dbl.fin (-7), Dbl.fin 0⟩, ⟨Dbl.fin 223, Dbl.fin 100⟩, Vec2.zero⟩] = Vec2.zero := by
    have h : ∀ f, steer Real.sqrt
        (⟨⟨Dbl.fin (-7), Dbl.fin 0⟩, ⟨Dbl.fin 223, Dbl.fin 100⟩, Vec2.zero⟩ : Boid ℝ)
        [⟨⟨Dbl.fin 7, Dbl.fin 0⟩, ⟨Dbl.fin 100, Dbl.fin 100⟩, Vec2.zero⟩,
          ⟨⟨Dbl.fin (-7), Dbl.fin 0⟩, ⟨Dbl.fin 223, Dbl.fin 100⟩, Vec2.zero⟩] f
        = Vec2.zero := by
      intro f
      apply steer_no_neighbour hs
      intro b hb
      simp only [List.mem_cons, List.mem_singleton, List.not_mem_nil, or_false] at hb
      rcases hb with rfl | rfl
      · simp only [isNeighbour, dist_axis hs, BOID_SIGHT_RADIUS, lt_fin_fin]
        norm_num
      · exact isNeighbour_self _ _
    exact steering_of_steer_zero _ _ _ h
  have hne : (Flag.ALIGN = Flag.COHESE) = False := eq_false (by decide)
  have hne2 : (Flag.AVOID = Flag.COHESE) = False := eq_false (by decide)
  have hstB : steering Real.sqrt
      (⟨⟨Dbl.fin (-7), Dbl.fin 0⟩, ⟨Dbl.fin 223, Dbl.fin 100⟩, Vec2.zero⟩ : Boid ℝ)
      [⟨⟨Dbl.fin 7, Dbl.fin 0⟩, ⟨Dbl.fin 107, Dbl.fin 100⟩, Vec2.zero⟩,
        ⟨⟨Dbl.fin (-7), Dbl.fin 0⟩, ⟨Dbl.fin 223, Dbl.fin 100⟩, Vec2.zero⟩]
      = ⟨Dbl.fin (2487394447 / 420500000), Dbl.fin 0⟩ := by
    have la := limit_axis_gt hs (14 : ℝ) (47 / 100000) (by norm_num)
    have lv := limit_axis_gt hs (813 / 116 : ℝ) (3 / 25) (by norm_num)
    have lc := limit_axis_gt hs (-109 : ℝ) (3 / 500000) (by norm_num)
    simp only [steering, steer, steerScan, isNeighbour, Vec2.ne, dist_axis hs, contribution,
      eq_fin_fin, lt_fin_fin, BOID_SIGHT_RADIUS, add, Vec2.zero, fin_add_fin, Dbl.ofInt,
      vecMag_fin, Dbl.isnan, sub, fin_sub_fin, scale, scaler, MAX_ALN, MAX_AVOID, MAX_CSN]
    norm_num [Dbl.isnan, fin_div_one, fin_div_fin_eq, vecMag_fin, fin_sub_fin, hne, hne2, la, lv,
      lc]
    rw [abs_of_pos (by norm_num : (0 : ℝ) < 813 / 116)]
    norm_num
  refine ⟨?_, ?_, ?_⟩
  · have e7 : enforceSpeed Real.sqrt
        (⟨⟨Dbl.fin 7, Dbl.fin 0⟩, ⟨Dbl.fin 107, Dbl.fin 100⟩, Vec2.zero⟩ : Boid ℝ)
        = ⟨⟨Dbl.fin 7, Dbl.fin 0⟩, ⟨Dbl.fin 107, Dbl.fin 100⟩, Vec2.zero⟩ := by
      simp only [enforceSpeed, vecMag_axis hs, BOID_SPEED, Dbl.ofInt, lt_fin_fin]
      norm_num
    have e7b : enforceSpeed Real.sqrt
        (⟨⟨Dbl.fin (-7), Dbl.fin 0⟩, ⟨Dbl.fin 223, Dbl.fin 100⟩,
          ⟨Dbl.fin (2487394447 / 420500000), Dbl.fin 0⟩⟩ : Boid ℝ)
        = ⟨⟨Dbl.fin (-7), Dbl.fin 0⟩, ⟨Dbl.fin 223, Dbl.fin 100⟩,
          ⟨Dbl.fin (2487394447 / 420500000), Dbl.fin 0⟩⟩ := by
      simp only [enforceSpeed, vecMag_axis hs, BOID_SPEED, Dbl.ofInt, lt_fin_fin]
      norm_num
    simp only [tick, List.length_cons, List.length_nil, tickFrom, tickBody, List.getElem?_cons_zero,
      List.getElem?_cons_succ, hiA, hiB, Option.some_bind, List.set_cons_zero, List.set_cons_succ,
      hstA, hstB, e7, e7b, Nat.zero_add, Nat.reduceAdd, List.length_singleton]
  · simp only [snapshotSteering, List.getElem?_cons_succ, List.getElem?_cons_zero, hiB,
      Option.map_some', List.set_cons_succ, List.set_cons_zero, hsnap]
  · intro h
    have := congrArg Vec2.x h
    simp only [Vec2.zero, Dbl.fin.injEq] at this
    norm_num at this

/-- C5 (the clamp branch overshoots): over the reals, `limit` applied to `(3, 4)` with
limit `1` takes the clamp branch, since the magnitude `5` exceeds `1`, and returns
`(15, 20)`, whose magnitude is `25` and not `1`. -/
theorem limit_overshoots :
    Dbl.gt (vecMag Real.sqrt ⟨Dbl.fin 3, Dbl.fin 4⟩) (Dbl.fin 1) = true ∧
      limit Real.sqrt ⟨Dbl.fin 3, Dbl.fin 4⟩ (Dbl.fin 1) = ⟨Dbl.fin 15, Dbl.fin 20⟩ ∧
      vecMag Real.sqrt (limit Real.sqrt ⟨Dbl.fin 3, Dbl.fin 4⟩ (Dbl.fin 1)) = Dbl.fin 25 ∧
      Dbl.le (Dbl.fin (25 : ℝ)) (Dbl.fin 1) = false := by
  have h25 : Real.sqrt (3 * 3 + 4 * 4) = 5 := real_sqrt_eq (by norm_num) (by norm_num)
  have h625 : Real.sqrt (15 * 15 + 20 * 20) = 25 := real_sqrt_eq (by norm_num) (by norm_num)
  have hl : limit Real.sqrt ⟨Dbl.fin 3, Dbl.fin 4⟩ (Dbl.fin 1) = ⟨Dbl.fin 15, Dbl.fin 20⟩ := by
    rw [limit_fin_gt sqrtExact_real 3 4 1 (by norm_num), h25]
    norm_num
  refine ⟨?_, hl, ?_, ?_⟩
  · rw [vecMag_fin, h25]
    norm_num
  · rw [hl, vecMag_fin, h625]
  · norm_num

/-- C6 as the code has it: for finite vectors `a`, `b` and positive `int` extents `W`,
`H`, with the rounded sums within the range of `int`, each coordinate of `addMod(a, b)` is
the extent when the summed coordinate `s` is `<= 0`, and otherwise is `s` rounded to the
nearest integer (halves away from zero) modulo the extent. -/
theorem addMod_rounds_modulo {F : Type} [LinearOrderedField F] [FloorRing F]
    (ax ay bx by_ : F) (W H : Int) (hW : 0 < W) (hH : 0 < H)
    (hx : Dbl.roundHalfAway (ax + bx) ≤ Dbl.INT_MAX)
    (hy : Dbl.roundHalfAway (ay + by_) ≤ Dbl.INT_MAX) :
    addMod W H ⟨Dbl.fin ax, Dbl.fin ay⟩ ⟨Dbl.fin bx, Dbl.fin by_⟩ =
      some ⟨Dbl.ofInt (if ax + bx ≤ 0 then W else Int.tmod (Dbl.roundHalfAway (ax + bx)) W),
        Dbl.ofInt (if ay + by_ ≤ 0 then H else Int.tmod (Dbl.roundHalfAway (ay + by_)) H)⟩ :=
  addMod_fin ax ay bx by_ W H hW hH hx hy

/-- Witness of C6 as the code has it: `(199, 2) + (4, 1/2)` in a 200 x 200 world. -/
theorem addMod_rounds_modulo_witness :
    addMod 200 200 (⟨Dbl.fin 199, Dbl.fin 2⟩ : Vec2 ℝ) ⟨Dbl.fin 4, Dbl.fin (1 / 2)⟩ =
      some ⟨Dbl.ofInt (if (199 : ℝ) + 4 ≤ 0 then 200
          else Int.tmod (Dbl.roundHalfAway ((199 : ℝ) + 4)) 200),
        Dbl.ofInt (if (2 : ℝ) + 1 / 2 ≤ 0 then 200
          else Int.tmod (Dbl.roundHalfAway ((2 : ℝ) + 1 / 2)) 200)⟩ :=
  addMod_rounds_modulo 199 2 4 (1 / 2) 200 200 (by decide) (by decide)
    (by norm_num [Dbl.roundHalfAway, Dbl.INT_MAX]) (by norm_num [Dbl.roundHalfAway, Dbl.INT_MAX])

/-- C6 fails as stated: in a 200 x 200 world `addMod((199, 2), (4, 1/2))` is `(3, 3)`.
On the x axis the sum `203` is `>= 200` and the result is `3`, not `0`; on the y axis the
sum `5/2` lies strictly between `0` and `200` and the result is `3`, not `5/2`. -/
theorem addMod_not_hard_wrap :
    addMod 200 200 (⟨Dbl.fin 199, Dbl.fin 2⟩ : Vec2 ℝ) ⟨Dbl.fin 4, Dbl.fin (1 / 2)⟩ =
        some ⟨Dbl.fin 3, Dbl.fin 3⟩ ∧
      ((200 : ℝ) ≤ 199 + 4 ∧ (3 : ℝ) ≠ 0) ∧
      ((0 : ℝ) < 2 + 1 / 2 ∧ (2 : ℝ) + 1 / 2 < 200 ∧ (3 : ℝ) ≠ 2 + 1 / 2) := by
  have hx : Dbl.roundHalfAway ((199 : ℝ) + 4) = 203 := by norm_num [Dbl.roundHalfAway]
  have hy : Dbl.roundHalfAway ((2 : ℝ) + 1 / 2) = 3 := by norm_num [Dbl.roundHalfAway]
  refine ⟨?_, by norm_num, by norm_num⟩
  have tx : Int.tmod 203 200 = 3 := by decide
  have ty : Int.tmod 3 200 = 3 := by decide
  rw [addMod_fin 199 2 4 (1 / 2) 200 200 (by decide) (by decide)
    (by rw [hx]; decide) (by rw [hy]; decide), hx, hy, tx, ty]
  norm_num [Dbl.ofInt]

/-- C7: with an exact square root, when no member of the population passes the neighbour
test of `steer` against the agent (velocity differs, position differs, distance below the
sight radius), `steer` returns the zero vector for every behaviour flag, whatever the
agent's own velocity is. -/
theorem steer_zero_without_neighbours {F : Type} [LinearOrderedField F] (sqrt : F → F)
    (hs : SqrtExact sqrt) (current : Boid F) (boids : List (Boid F))
    (h : ∀ b ∈ boids, ¬ (Vec2.ne current.vel b.vel = true ∧ Vec2.ne current.pos b.pos = true ∧
      Dbl.lt (dist sqrt current.pos.x b.pos.x current.pos.y b.pos.y) BOID_SIGHT_RADIUS = true)) :
    ∀ f : Flag, steer sqrt current boids f = Vec2.zero := by
  intro f
  apply steer_no_neighbour hs
  intro b hb
  have := h b hb
  simp only [isNeighbour, Bool.and_eq_false_iff]
  by_cases h1 : Vec2.ne current.vel b.vel = true
  · by_cases h2 : Vec2.ne current.pos b.pos = true
    · right
      by_contra h3
      exact this ⟨h1, h2, by simpa using h3⟩
    · left; right
      simpa using h2
  · left; left
    simpa using h1

/-- Witness of C7 over the reals: an agent at `(100, 100)` with velocity `(7, 0)` in a
population of itself and one member at `(300, 100)`, at distance `200`. -/
theorem steer_zero_without_neighbours_witness :
    steer Real.sqrt (⟨⟨Dbl.fin 7, Dbl.fin 0⟩, ⟨Dbl.fin 100, Dbl.fin 100⟩, Vec2.zero⟩ : Boid ℝ)
        [⟨⟨Dbl.fin 7, Dbl.fin 0⟩, ⟨Dbl.fin 100, Dbl.fin 100⟩, Vec2.zero⟩,
          ⟨⟨Dbl.fin (-7), Dbl.fin 0⟩, ⟨Dbl.fin 300, Dbl.fin 100⟩, Vec2.zero⟩] Flag.ALIGN
      = Vec2.zero ∧
    steer Real.sqrt (⟨⟨Dbl.fin 7, Dbl.fin 0⟩, ⟨Dbl.fin 100, Dbl.fin 100⟩, Vec2.zero⟩ : Boid ℝ)
        [⟨⟨Dbl.fin 7, Dbl.fin 0⟩, ⟨Dbl.fin 100, Dbl.fin 100⟩, Vec2.zero⟩,
          ⟨⟨Dbl.fin (-7), Dbl.fin 0⟩, ⟨Dbl.fin 300, Dbl.fin 100⟩, Vec2.zero⟩] Flag.AVOID
      = Vec2.zero ∧
    steer Real.sqrt (⟨⟨Dbl.fin 7, Dbl.fin 0⟩, ⟨Dbl.fin 100, Dbl.fin 100⟩, Vec2.zero⟩ : Boid ℝ)
        [⟨⟨Dbl.fin 7, Dbl.fin 0⟩, ⟨Dbl.fin 100, Dbl.fin 100⟩, Vec2.zero⟩,
          ⟨⟨Dbl.fin (-7), Dbl.fin 0⟩, ⟨Dbl.fin 300, Dbl.fin 100⟩, Vec2.zero⟩] Flag.COHESE
      = Vec2.zero :=
  have h := steer_zero_without_neighbours Real.sqrt sqrtExact_real
    (⟨⟨Dbl.fin 7, Dbl.fin 0⟩, ⟨Dbl.fin 100, Dbl.fin 100⟩, Vec2.zero⟩ : Boid ℝ)
    [⟨⟨Dbl.fin 7, Dbl.fin 0⟩, ⟨Dbl.fin 100, Dbl.fin 100⟩, Vec2.zero⟩,
      ⟨⟨Dbl.fin (-7), Dbl.fin 0⟩, ⟨Dbl.fin 300, Dbl.fin 100⟩, Vec2.zero⟩] (by
    have h200 : Real.sqrt 40000 = 200 := real_sqrt_eq (by norm_num) (by norm_num)
    intro b hb
    simp only [List.mem_cons, List.mem_singleton, List.not_mem_nil, or_false] at hb
    rcases hb with rfl | rfl
    · simp [Vec2.ne]
    · simp only [dist_fin, BOID_SIGHT_RADIUS, lt_fin_fin]
      norm_num [h200])
  ⟨h Flag.ALIGN, h Flag.AVOID, h Flag.COHESE⟩

/-- C8: a boid is never counted by its own scan. For every population and index `i`, the
scan of `steer` with `current = boids[i]` ends with the same running sum and counter as the
scan of the population with entry `i` removed; and, with an exact square root, a population
of one agent gives zero steering for every behaviour flag. -/
theorem steer_excludes_self {F : Type} [LinearOrderedField F] (sqrt : F → F)
    (hs : SqrtExact sqrt) :
    (∀ (boids : List (Boid F)) (i : Nat) (current : Boid F) (f : Flag) (acc : Vec2 F × Nat),
      boids[i]? = some current →
      steerScan sqrt f current boids acc = steerScan sqrt f current (boids.eraseIdx i) acc) ∧
    (∀ (b : Boid F) (f : Flag), steer sqrt b [b] f = Vec2.zero) := by
  refine ⟨fun boids i current f acc h => steerScan_eraseIdx sqrt f current boids i acc h, ?_⟩
  intro b f
  apply steer_no_neighbour hs
  intro c hc
  simp only [List.mem_singleton] at hc
  subst hc
  exact isNeighbour_self sqrt c

/-- Witness of C8 over the reals: the agent at `(100, 100)` with velocity `(7, 0)`, stored
at index `0` of a population whose other member is at `(110, 100)` with velocity `(-7, 0)`,
and the same agent alone. -/
theorem steer_excludes_self_witness :
    steerScan Real.sqrt Flag.ALIGN
        (⟨⟨Dbl.fin 7, Dbl.fin 0⟩, ⟨Dbl.fin 100, Dbl.fin 100⟩, Vec2.zero⟩ : Boid ℝ)
        [⟨⟨Dbl.fin 7, Dbl.fin 0⟩, ⟨Dbl.fin 100, Dbl.fin 100⟩, Vec2.zero⟩,
          ⟨⟨Dbl.fin (-7), Dbl.fin 0⟩, ⟨Dbl.fin 110, Dbl.fin 100⟩, Vec2.zero⟩] (Vec2.zero, 0)
      = steerScan Real.sqrt Flag.ALIGN
        (⟨⟨Dbl.fin 7, Dbl.fin 0⟩, ⟨Dbl.fin 100, Dbl.fin 100⟩, Vec2.zero⟩ : Boid ℝ)
        (List.eraseIdx
          [⟨⟨Dbl.fin 7, Dbl.fin 0⟩, ⟨Dbl.fin 100, Dbl.fin 100⟩, Vec2.zero⟩,
            ⟨⟨Dbl.fin (-7), Dbl.fin 0⟩, ⟨Dbl.fin 110, Dbl.fin 100⟩, Vec2.zero⟩] 0)
        (Vec2.zero, 0) ∧
    steer Real.sqrt (⟨⟨Dbl.fin 7, Dbl.fin 0⟩, ⟨Dbl.fin 100, Dbl.fin 100⟩, Vec2.zero⟩ : Boid ℝ)
        [⟨⟨Dbl.fin 7, Dbl.fin 0⟩, ⟨Dbl.fin 100, Dbl.fin 100⟩, Vec2.zero⟩] Flag.ALIGN
      = Vec2.zero :=
  have h := steer_excludes_self Real.sqrt sqrtExact_real
  ⟨h.1 _ 0 _ Flag.ALIGN (Vec2.zero, 0) rfl, h.2 _ Flag.ALIGN⟩

/-- C10 (the code has no guard): with an exact square root, `norm` of the zero vector
is the vector `(NaN, NaN)`, because `1 / vecMag` is `+inf` and `0 * inf` is NaN, and
`newMag` of the zero vector is `(NaN, NaN)` for every target magnitude `n`. -/
theorem norm_zero_is_nan {F : Type} [LinearOrderedField F] (sqrt : F → F)
    (hs : SqrtExact sqrt) :
    norm sqrt (Vec2.zero : Vec2 F) = ⟨Dbl.nan, Dbl.nan⟩ ∧
      ∀ n : Dbl F, newMag sqrt (Vec2.zero : Vec2 F) n = ⟨Dbl.nan, Dbl.nan⟩ :=
  ⟨norm_zero hs, fun n => newMag_zero hs n⟩

/-- Witness of C10 over the reals with the real square root. -/
theorem norm_zero_is_nan_witness :
    SqrtExact Real.sqrt ∧
      (norm Real.sqrt (Vec2.zero : Vec2 ℝ) = ⟨Dbl.nan, Dbl.nan⟩ ∧
        ∀ n : Dbl ℝ, newMag Real.sqrt (Vec2.zero : Vec2 ℝ) n = ⟨Dbl.nan, Dbl.nan⟩) :=
  ⟨sqrtExact_real, norm_zero_is_nan Real.sqrt sqrtExact_real⟩

/-- C11 fails on the code: with an exact square root, whenever both velocity draws of
`randBoid` have `rand() % 6 == 3` the raw velocity is `(0, 0)` and the boid is created with
the velocity `(NaN, NaN)`, whose magnitude is not `BOID_SPEED`; the acceleration is zero as
claimed. -/
theorem randBoid_zero_draw_is_nan {F : Type} [LinearOrderedField F] (sqrt : F → F)
    (hs : SqrtExact sqrt) (W H r1 r2 r3 r4 : Int) (hW : W - 20 ≠ 0) (hH : H - 20 ≠ 0)
    (h3 : Int.tmod r3 6 = 3) (h4 : Int.tmod r4 6 = 3) :
    ∃ b : Boid F, randBoid sqrt W H r1 r2 r3 r4 = some b ∧ b.vel = ⟨Dbl.nan, Dbl.nan⟩ ∧
      Dbl.eq (vecMag sqrt b.vel) (Dbl.ofInt BOID_SPEED) = false ∧ b.accel = Vec2.zero := by
  have hz : newMag sqrt (⟨Dbl.ofInt (-3 * BOID_SPEED + 3 * BOID_SPEED),
      Dbl.ofInt (-3 * BOID_SPEED + 3 * BOID_SPEED)⟩ : Vec2 F) (Dbl.ofInt BOID_SPEED)
      = ⟨Dbl.nan, Dbl.nan⟩ := by
    have : (⟨Dbl.ofInt (-3 * BOID_SPEED + 3 * BOID_SPEED),
        Dbl.ofInt (-3 * BOID_SPEED + 3 * BOID_SPEED)⟩ : Vec2 F) = Vec2.zero := by
      simp [Dbl.ofInt, BOID_SPEED, Vec2.zero]
    rw [this, newMag_zero hs]
  refine ⟨⟨⟨Dbl.nan, Dbl.nan⟩, ⟨Dbl.ofInt (20 + Int.tmod r1 (W - 20)),
    Dbl.ofInt (20 + Int.tmod r2 (H - 20))⟩, ⟨Dbl.ofInt 0, Dbl.ofInt 0⟩⟩, ?_, rfl, ?_, ?_⟩
  · simp only [randBoid, imod, hW, hH, if_false, Option.some_bind, h3, h4, hz]
  · simp [vecMag]
  · simp [Dbl.ofInt, Vec2.zero]

/-- Witness of C11 on the code: the draws `5, 7, 3, 3` in a 200 x 200 window, over the
reals. -/
theorem randBoid_zero_draw_is_nan_witness :
    ∃ b : Boid ℝ, randBoid Real.sqrt 200 200 5 7 3 3 = some b ∧ b.vel = ⟨Dbl.nan, Dbl.nan⟩ ∧
      Dbl.eq (vecMag Real.sqrt b.vel) (Dbl.ofInt BOID_SPEED) = false ∧ b.accel = Vec2.zero :=
  randBoid_zero_draw_is_nan Real.sqrt sqrtExact_real 200 200 5 7 3 3 (by decide) (by decide)
    (by decide) (by decide)

/-- C13 fails on the code: over the reals, `minLimit` applied to `(3, 4)` with limit `10`
takes the clamp branch, since the magnitude `5` is below `10`, and returns `(150, 200)`,
whose magnitude is `250` and not `10`. -/
theorem minLimit_overshoots :
    Dbl.lt (vecMag Real.sqrt ⟨Dbl.fin 3, Dbl.fin 4⟩) (Dbl.fin 10) = true ∧
      minLimit Real.sqrt ⟨Dbl.fin 3, Dbl.fin 4⟩ (Dbl.fin 10) = ⟨Dbl.fin 150, Dbl.fin 200⟩ ∧
      vecMag Real.sqrt (minLimit Real.sqrt ⟨Dbl.fin 3, Dbl.fin 4⟩ (Dbl.fin 10)) = Dbl.fin 250 ∧
      Dbl.eq (Dbl.fin (250 : ℝ)) (Dbl.fin 10) = false := by
  have h25 : Real.sqrt (3 * 3 + 4 * 4) = 5 := real_sqrt_eq (by norm_num) (by norm_num)
  have hbig : Real.sqrt (150 * 150 + 200 * 200) = 250 :=
    real_sqrt_eq (by norm_num) (by norm_num)
  have hl : minLimit Real.sqrt ⟨Dbl.fin 3, Dbl.fin 4⟩ (Dbl.fin 10)
      = ⟨Dbl.fin 150, Dbl.fin 200⟩ := by
    rw [minLimit_fin_lt sqrtExact_real 3 4 10 (by norm_num) (by norm_num), h25]
    norm_num
  refine ⟨?_, hl, ?_, ?_⟩
  · rw [vecMag_fin, h25]
    norm_num
  · rw [hl, vecMag_fin, hbig]
  · norm_num

/-- C14: for every extent `W`, `H` and every population whose position integrations are
defined, an agent whose x coordinate plus x velocity is `<= 0` has, after one tick, the x
coordinate exactly `W`. -/
theorem tick_wraps_nonpositive_x_to_width {F : Type} [LinearOrderedField F] [FloorRing F]
    (sqrt : F → F) (W H : Int) (boids : List (Boid F))
    (hdef : ∀ b ∈ boids, (addMod W H b.pos b.vel).isSome = true)
    (i : Nat) (b : Boid F) (hb : boids[i]? = some b)
    (hx : Dbl.le (b.pos.x + b.vel.x) (Dbl.fin 0) = true) :
    ∃ result b', tick sqrt W H boids = some result ∧ result[i]? = some b' ∧
      b'.pos.x = Dbl.ofInt W :=
  tick_x_of_le sqrt W H boids hdef i b hb hx

/-- Witness of C14: the agent at `(0, 50)` with velocity `(-7, 0)` in a 200 x 200 world
ends the tick with x coordinate `200`, which is not `200 - 7`. -/
theorem tick_wraps_nonpositive_x_to_width_witness :
    (∃ result b',
      tick Real.sqrt 200 200
        [(⟨⟨Dbl.fin (-7), Dbl.fin 0⟩, ⟨Dbl.fin 0, Dbl.fin 50⟩, Vec2.zero⟩ : Boid ℝ)]
        = some result ∧
      result[0]? = some b' ∧ b'.pos.x = Dbl.ofInt 200) ∧
    (Dbl.ofInt 200 : Dbl ℝ) ≠ Dbl.fin (200 - 7) :=
  ⟨tick_wraps_nonpositive_x_to_width Real.sqrt 200 200
    [(⟨⟨Dbl.fin (-7), Dbl.fin 0⟩, ⟨Dbl.fin 0, Dbl.fin 50⟩, Vec2.zero⟩ : Boid ℝ)]
    (by
      intro b hb
      simp only [List.mem_singleton] at hb
      subst hb
      rw [addMod_fin 0 50 (-7) 0 200 200 (by decide) (by decide)
        (le_trans (roundHalfAway_nonpos (by norm_num)) (by decide))
        (by norm_num [Dbl.roundHalfAway, Dbl.INT_MAX])]
      rfl)
    0 _ rfl (by simp),
   by
    intro h
    simp only [Dbl.ofInt, Dbl.fin.injEq] at h
    norm_num at h⟩

/-- C15: in a 200 x 200 world, one tick of the population of agent A at `(100, 100)` with
velocity `(7, 0)` and agent B at `(110, 100)` with velocity `(-7, 0)`, both with zero
acceleration, leaves A at `(107, 100)` and B at `(103, 100)`: both positions differ from the
starting ones, all four coordinates lie in `[0, 200)`, and the value of `steer` with `AVOID`
that the loop computes for A is `(-484/75, 0)`, with a strictly negative x component. -/
theorem two_agent_scenario :
    tick Real.sqrt 200 200 [(⟨⟨Dbl.fin 7, Dbl.fin 0⟩, ⟨Dbl.fin 100, Dbl.fin 100⟩, Vec2.zero⟩ : Boid ℝ), ⟨⟨Dbl.fin (-7), Dbl.fin 0⟩, ⟨Dbl.fin 110, Dbl.fin 100⟩, Vec2.zero⟩]
      = some [⟨⟨Dbl.fin 7, Dbl.fin 0⟩, ⟨Dbl.fin 107, Dbl.fin 100⟩,
          ⟨Dbl.fin (-(2454581 / 375000)), Dbl.fin 0⟩⟩,
        ⟨⟨Dbl.fin (-7), Dbl.fin 0⟩, ⟨Dbl.fin 103, Dbl.fin 100⟩,
          ⟨Dbl.fin (2780173 / 500000), Dbl.fin 0⟩⟩] ∧
    (Vec2.ne (⟨Dbl.fin 107, Dbl.fin 100⟩ : Vec2 ℝ) ⟨Dbl.fin 100, Dbl.fin 100⟩ = true ∧
      Vec2.ne (⟨Dbl.fin 103, Dbl.fin 100⟩ : Vec2 ℝ) ⟨Dbl.fin 110, Dbl.fin 100⟩ = true) ∧
    (Dbl.le (Dbl.fin (0 : ℝ)) (Dbl.fin 107) = true ∧ Dbl.lt (Dbl.fin (107 : ℝ)) (Dbl.fin 200) = true ∧
      Dbl.le (Dbl.fin (0 : ℝ)) (Dbl.fin 103) = true ∧ Dbl.lt (Dbl.fin (103 : ℝ)) (Dbl.fin 200) = true ∧
      Dbl.le (Dbl.fin (0 : ℝ)) (Dbl.fin 100) = true ∧
      Dbl.lt (Dbl.fin (100 : ℝ)) (Dbl.fin 200) = true) ∧
    steer Real.sqrt (⟨⟨Dbl.fin 7, Dbl.fin 0⟩, ⟨Dbl.fin 107, Dbl.fin 100⟩, Vec2.zero⟩ : Boid ℝ)
        [⟨⟨Dbl.fin 7, Dbl.fin 0⟩, ⟨Dbl.fin 107, Dbl.fin 100⟩, Vec2.zero⟩, ⟨⟨Dbl.fin (-7), Dbl.fin 0⟩, ⟨Dbl.fin 110, Dbl.fin 100⟩, Vec2.zero⟩] Flag.AVOID
      = ⟨Dbl.fin (-(484 / 75)), Dbl.fin 0⟩ ∧
    Dbl.lt (Dbl.fin (-(484 / 75) : ℝ)) (Dbl.fin 0) = true := by
  have hs := sqrtExact_real
  have r107 : Dbl.roundHalfAway ((100 : ℝ) + 7) = 107 := by norm_num [Dbl.roundHalfAway]
  have r100 : Dbl.roundHalfAway ((100 : ℝ) + 0) = 100 := by norm_num [Dbl.roundHalfAway]
  have r103 : Dbl.roundHalfAway ((110 : ℝ) + -7) = 103 := by norm_num [Dbl.roundHalfAway]
  have t107 : Int.tmod 107 200 = 107 := by decide
  have t100 : Int.tmod 100 200 = 100 := by decide
  have t103 : Int.tmod 103 200 = 103 := by decide
  have hiA : integrate 200 200 (⟨⟨Dbl.fin 7, Dbl.fin 0⟩, ⟨Dbl.fin 100, Dbl.fin 100⟩, Vec2.zero⟩ : Boid ℝ)
      = some ⟨⟨Dbl.fin 7, Dbl.fin 0⟩, ⟨Dbl.fin 107, Dbl.fin 100⟩, Vec2.zero⟩ := by
    simp only [integrate]
    rw [addMod_fin 100 100 7 0 200 200 (by decide) (by decide)
      (by rw [r107]; decide) (by rw [r100]; decide), r107, r100, t107, t100]
    norm_num [Dbl.ofInt, add, Vec2.zero]
  have hiB : integrate 200 200 (⟨⟨Dbl.fin (-7), Dbl.fin 0⟩, ⟨Dbl.fin 110, Dbl.fin 100⟩, Vec2.zero⟩ : Boid ℝ)
      = some ⟨⟨Dbl.fin (-7), Dbl.fin 0⟩, ⟨Dbl.fin 103, Dbl.fin 100⟩, Vec2.zero⟩ := by
    simp only [integrate]
    rw [addMod_fin 110 100 (-7) 0 200 200 (by decide) (by decide)
      (by rw [r103]; decide) (by rw [r100]; decide), r103, r100, t103, t100]
    norm_num [Dbl.ofInt, add, Vec2.zero]
  have hne : (Flag.ALIGN = Flag.COHESE) = False := eq_false (by decide)
  have hne2 : (Flag.AVOID = Flag.COHESE) = False := eq_false (by decide)
  have la : limit Real.sqrt (⟨Dbl.fin (-14), Dbl.fin 0⟩ : Vec2 ℝ) (Dbl.fin (47 / 100000))
      = ⟨Dbl.fin (-(2303 / 25000)), Dbl.fin 0⟩ := by
    rw [limit_axis_gt hs (-14 : ℝ) (47 / 100000) (by norm_num),
      abs_of_neg (by norm_num : (-14 : ℝ) < 0)]
    norm_num
  have lv : limit Real.sqrt (⟨Dbl.fin (-(22 / 3)), Dbl.fin 0⟩ : Vec2 ℝ) (Dbl.fin (3 / 25))
      = ⟨Dbl.fin (-(484 / 75)), Dbl.fin 0⟩ := by
    rw [limit_axis_gt hs (-(22 / 3) : ℝ) (3 / 25) (by norm_num),
      abs_of_neg (by norm_num : (-(22 / 3) : ℝ) < 0)]
    norm_num
  have lc : limit Real.sqrt (⟨Dbl.fin (-4), Dbl.fin 0⟩ : Vec2 ℝ) (Dbl.fin (3 / 500000))
      = ⟨Dbl.fin (-(3 / 31250)), Dbl.fin 0⟩ := by
    rw [limit_axis_gt hs (-4 : ℝ) (3 / 500000) (by norm_num),
      abs_of_neg (by norm_num : (-4 : ℝ) < 0)]
    norm_num
  have la2 : limit Real.sqrt (⟨Dbl.fin 14, Dbl.fin 0⟩ : Vec2 ℝ) (Dbl.fin (47 / 100000))
      = ⟨Dbl.fin (2303 / 25000), Dbl.fin 0⟩ := by
    rw [limit_axis_gt hs (14 : ℝ) (47 / 100000) (by norm_num),
      abs_of_pos (by norm_num : (0 : ℝ) < 14)]
    norm_num
  have lv2 : limit Real.sqrt (⟨Dbl.fin (27 / 4), Dbl.fin 0⟩ : Vec2 ℝ) (Dbl.fin (3 / 25))
      = ⟨Dbl.fin (2187 / 400), Dbl.fin 0⟩ := by
    rw [limit_axis_gt hs (27 / 4 : ℝ) (3 / 25) (by norm_num),
      abs_of_pos (by norm_num : (0 : ℝ) < 27 / 4)]
    norm_num
  have lc2 : limit Real.sqrt (⟨Dbl.fin 11, Dbl.fin 0⟩ : Vec2 ℝ) (Dbl.fin (3 / 500000))
      = ⟨Dbl.fin (363 / 500000), Dbl.fin 0⟩ := by
    rw [limit_axis_gt hs (11 : ℝ) (3 / 500000) (by norm_num),
      abs_of_pos (by norm_num : (0 : ℝ) < 11)]
    norm_num
  have hav : steer Real.sqrt (⟨⟨Dbl.fin 7, Dbl.fin 0⟩, ⟨Dbl.fin 107, Dbl.fin 100⟩, Vec2.zero⟩ : Boid ℝ)
      [⟨⟨Dbl.fin 7, Dbl.fin 0⟩, ⟨Dbl.fin 107, Dbl.fin 100⟩, Vec2.zero⟩, ⟨⟨Dbl.fin (-7), Dbl.fin 0⟩, ⟨Dbl.fin 110, Dbl.fin 100⟩, Vec2.zero⟩] Flag.AVOID
      = ⟨Dbl.fin (-(484 / 75)), Dbl.fin 0⟩ := by
    simp only [steering, steer, steerScan, isNeighbour, Vec2.ne, dist_axis hs, contribution,
      eq_fin_fin, lt_fin_fin, BOID_SIGHT_RADIUS, add, Vec2.zero, fin_add_fin, Dbl.ofInt,
      vecMag_fin, Dbl.isnan, sub, fin_sub_fin, scale, scaler, MAX_ALN, MAX_AVOID, MAX_CSN]
    norm_num [Dbl.isnan, fin_div_one, fin_div_fin_eq, vecMag_fin, fin_sub_fin, hne2, lv]
  have hstA : steering Real.sqrt (⟨⟨Dbl.fin 7, Dbl.fin 0⟩, ⟨Dbl.fin 107, Dbl.fin 100⟩, Vec2.zero⟩ : Boid ℝ)
      [⟨⟨Dbl.fin 7, Dbl.fin 0⟩, ⟨Dbl.fin 107, Dbl.fin 100⟩, Vec2.zero⟩, ⟨⟨Dbl.fin (-7), Dbl.fin 0⟩, ⟨Dbl.fin 110, Dbl.fin 100⟩, Vec2.zero⟩]
      = ⟨Dbl.fin (-(2454581 / 375000)), Dbl.fin 0⟩ := by
    simp only [steering, steer, steerScan, isNeighbour, Vec2.ne, dist_axis hs, contribution,
      eq_fin_fin, lt_fin_fin, BOID_SIGHT_RADIUS, add, Vec2.zero, fin_add_fin, Dbl.ofInt,
      vecMag_fin, Dbl.isnan, sub, fin_sub_fin, scale, scaler, MAX_ALN, MAX_AVOID, MAX_CSN]
    norm_num [Dbl.isnan, fin_div_one, fin_div_fin_eq, vecMag_fin, fin_sub_fin, hne, hne2, la, lv,
      lc]
  have hstB : steering Real.sqrt (⟨⟨Dbl.fin (-7), Dbl.fin 0⟩, ⟨Dbl.fin 103, Dbl.fin 100⟩, Vec2.zero⟩ : Boid ℝ)
      [⟨⟨Dbl.fin 7, Dbl.fin 0⟩, ⟨Dbl.fin 107, Dbl.fin 100⟩,
          ⟨Dbl.fin (-(2454581 / 375000)), Dbl.fin 0⟩⟩,
        ⟨⟨Dbl.fin (-7), Dbl.fin 0⟩, ⟨Dbl.fin 103, Dbl.fin 100⟩, Vec2.zero⟩]
      = ⟨Dbl.fin (2780173 / 500000), Dbl.fin 0⟩ := by
    simp only [steering, steer, steerScan, isNeighbour, Vec2.ne, dist_axis hs, contribution,
      eq_fin_fin, lt_fin_fin, BOID_SIGHT_RADIUS, add, Vec2.zero, fin_add_fin, Dbl.ofInt,
      vecMag_fin, Dbl.isnan, sub, fin_sub_fin, scale, scaler, MAX_ALN, MAX_AVOID, MAX_CSN]
    norm_num [Dbl.isnan, fin_div_one, fin_div_fin_eq, vecMag_fin, fin_sub_fin, hne, hne2, la2,
      lv2, lc2]
  have e7 : enforceSpeed Real.sqrt
      (⟨⟨Dbl.fin 7, Dbl.fin 0⟩, ⟨Dbl.fin 107, Dbl.fin 100⟩,
          ⟨Dbl.fin (-(2454581 / 375000)), Dbl.fin 0⟩⟩ : Boid ℝ)
      = ⟨⟨Dbl.fin 7, Dbl.fin 0⟩, ⟨Dbl.fin 107, Dbl.fin 100⟩,
          ⟨Dbl.fin (-(2454581 / 375000)), Dbl.fin 0⟩⟩ := by
    simp only [enforceSpeed, vecMag_axis hs, BOID_SPEED, Dbl.ofInt, lt_fin_fin]
    norm_num
  have e7b : enforceSpeed Real.sqrt
      (⟨⟨Dbl.fin (-7), Dbl.fin 0⟩, ⟨Dbl.fin 103, Dbl.fin 100⟩,
          ⟨Dbl.fin (2780173 / 500000), Dbl.fin 0⟩⟩ : Boid ℝ)
      = ⟨⟨Dbl.fin (-7), Dbl.fin 0⟩, ⟨Dbl.fin 103, Dbl.fin 100⟩,
          ⟨Dbl.fin (2780173 / 500000), Dbl.fin 0⟩⟩ := by
    simp only [enforceSpeed, vecMag_axis hs, BOID_SPEED, Dbl.ofInt, lt_fin_fin]
    norm_num
  refine ⟨?_, ?_, ?_, hav, ?_⟩
  · simp only [tick, List.length_cons, List.length_nil, tickFrom, tickBody,
      List.getElem?_cons_zero, List.getElem?_cons_succ, hiA, hiB, Option.some_bind,
      List.set_cons_zero, List.set_cons_succ, hstA, hstB, e7, e7b, Nat.zero_add, Nat.reduceAdd,
      List.length_singleton]
  · simp only [Vec2.ne, eq_fin_fin]
    norm_num
  · simp only [le_fin_fin, lt_fin_fin]
    norm_num
  · simp only [lt_fin_fin]
    norm_num

/-- C16 as the code has it: the population size is `600` when no argument is given; when an
argument is given it is `atoi(argv[1])`, which is `n` for the decimal text of a positive `n`
within the range of `int`, and `0` for a text whose first character is neither white space,
a sign nor a digit. -/
theorem numBoids_is_default_or_atoi :
    selectNumBoids none = some 600 ∧
    (∀ n : Nat, 0 < n → (n : Int) ≤ Dbl.INT_MAX →
      selectNumBoids (some (decimal n)) = some (n : Int)) ∧
    (∀ (c : Char) (cs : List Char), isSpaceCode c = false → c.toNat ≠ 45 → c.toNat ≠ 43 →
      isDigitCode c = false → selectNumBoids (some (c :: cs)) = some 0) :=
  ⟨rfl, fun n _ hn => atoi_decimal n hn,
    fun c cs hsp h45 h43 hdig => atoi_non_numeric c cs hsp h45 h43 hdig⟩

/-- C16 fails as stated: for the argument `abc` the population size is `0`, not `600`. -/
theorem numBoids_non_numeric_is_zero :
    selectNumBoids (some ['a', 'b', 'c']) = some 0 ∧ (0 : Int) ≠ DEFAULT_NUM_BOIDS := by
  constructor
  · exact atoi_non_numeric _ _ (by decide) (by decide) (by decide) (by decide)
  · decide

/-- C18: for all finite vectors `a`, `b` and positive `int` extents `W`, `H`, with the
rounded sums within the range of `int`, `addMod(a, b)` has integer coordinates with
`0 <= x <= W` and `0 <= y <= H`; a coordinate equals its extent exactly when the summed
coordinate is `<= 0`, and is strictly below the extent otherwise. -/
theorem addMod_within_closed_extents {F : Type} [LinearOrderedField F] [FloorRing F]
    (ax ay bx by_ : F) (W H : Int) (hW : 0 < W) (hH : 0 < H)
    (hx : Dbl.roundHalfAway (ax + bx) ≤ Dbl.INT_MAX)
    (hy : Dbl.roundHalfAway (ay + by_) ≤ Dbl.INT_MAX) :
    ∃ xi yi : Int,
      addMod W H ⟨Dbl.fin ax, Dbl.fin ay⟩ ⟨Dbl.fin bx, Dbl.fin by_⟩
        = some ⟨Dbl.ofInt xi, Dbl.ofInt yi⟩ ∧
      (0 ≤ xi ∧ xi ≤ W ∧ (xi = W ↔ ax + bx ≤ 0) ∧ (¬ ax + bx ≤ 0 → xi < W)) ∧
      (0 ≤ yi ∧ yi ≤ H ∧ (yi = H ↔ ay + by_ ≤ 0) ∧ (¬ ay + by_ ≤ 0 → yi < H)) :=
  addMod_closed_bounds ax ay bx by_ W H hW hH hx hy

/-- Witness of C18 over the reals: `(0, 50) + (-7, 1/2)` in a 200 x 200 world. -/
theorem addMod_within_closed_extents_witness :
    ∃ xi yi : Int,
      addMod 200 200 (⟨Dbl.fin 0, Dbl.fin 50⟩ : Vec2 ℝ) ⟨Dbl.fin (-7), Dbl.fin (1 / 2)⟩
        = some ⟨Dbl.ofInt xi, Dbl.ofInt yi⟩ ∧
      (0 ≤ xi ∧ xi ≤ 200 ∧ (xi = 200 ↔ (0 : ℝ) + -7 ≤ 0) ∧ (¬ (0 : ℝ) + -7 ≤ 0 → xi < 200)) ∧
      (0 ≤ yi ∧ yi ≤ 200 ∧ (yi = 200 ↔ (50 : ℝ) + 1 / 2 ≤ 0) ∧
        (¬ (50 : ℝ) + 1 / 2 ≤ 0 → yi < 200)) :=
  addMod_within_closed_extents 0 50 (-7) (1 / 2) 200 200 (by decide) (by decide)
    (le_trans (roundHalfAway_nonpos (by norm_num)) (by decide))
    (by norm_num [Dbl.roundHalfAway, Dbl.INT_MAX])

/-- C20: for every vector `v` whose x component is not zero and every arctangent function,
`vecDir(v)` equals `vecDir(-v)`: the display angle of a velocity and of the exactly opposite
velocity is the same, since only the quotient `y / x` enters. -/
theorem heading_ignores_orientation {F : Type} [LinearOrderedField F]
    (atan : Dbl F → Dbl F) (v : Vec2 F) (hx : v.x ≠ Dbl.fin 0) :
    vecDir atan (Vec2.neg v) = vecDir atan v :=
  vecDir_neg atan v hx

/-- Witness of C20 over the reals with the real arctangent: the vector `(3, 4)`. -/
theorem heading_ignores_orientation_witness :
    vecDir (Dbl.atan Real.arctan (Real.pi / 2)) (Vec2.neg (⟨Dbl.fin 3, Dbl.fin 4⟩ : Vec2 ℝ))
      = vecDir (Dbl.atan Real.arctan (Real.pi / 2)) ⟨Dbl.fin 3, Dbl.fin 4⟩ :=
  heading_ignores_orientation (Dbl.atan Real.arctan (Real.pi / 2)) ⟨Dbl.fin 3, Dbl.fin 4⟩ (by
    intro h
    simp only [Dbl.fin.injEq] at h
    norm_num at h)

end Claims

end Boids
